import Mathlib

/-!
# libvma daemon: message decoding and session tracking

Shallow embedding of `src/tools/daemon/message.c` (functions `proc_message`,
`proc_msg_init`, `proc_msg_exit`, `proc_msg_state`).

* The receive buffer `msg_recv` is a list of bytes; the handlers get the
  buffer the pointer `msg_hdr` points to (always the start of `msg_recv`)
  and the remaining length `size`.
* The headers `vma/util/agent.h`, `vma/lwip/tcp.h`, `daemon.h` and `hash.h`
  are not part of the sources at hand.  The wire layout and the constants are
  a parameter (`agent_h`); the associative map is modelled from its contract.
* Results of system calls (`calloc`, `gettimeofday`, `sys_sendto`,
  `recvfrom`) are inputs of the model.  Logging is left out.
* `len` and `rc` are `Int`; sizes, field values and keys are `Nat`.
-/

namespace Vma

/-! ## errno values (Linux, `errno.h`) -/

def ENOENT : Int := 2
def EINTR : Int := 4
def ENOMEM : Int := 12
def EFAULT : Int := 14
def EPROTO : Int := 71
def EBADMSG : Int := 74

/-! ## Wire layout and constants -/

/-- The declarations the code takes from headers that are not in the sources:
the constants of `vma/util/agent.h`, `CLOSED` of `vma/lwip/tcp.h`,
`SOCK_STREAM` of `sys/socket.h`, the sizes of the message structures, and the
field accesses of the structure overlay at the start of a buffer. -/
structure agent_h where
  VMA_AGENT_VER : Nat
  VMA_MSG_INIT : Nat
  VMA_MSG_STATE : Nat
  VMA_MSG_EXIT : Nat
  VMA_MSG_ACK : Nat
  CLOSED : Nat
  SOCK_STREAM : Nat
  /-- C: `sizeof(struct vma_hdr)` -/
  sizeof_hdr : Nat
  /-- C: `sizeof(struct vma_msg_init)` -/
  sizeof_init : Nat
  /-- C: `sizeof(struct vma_msg_state)` -/
  sizeof_state : Nat
  /-- C: `sizeof(struct vma_msg_exit)` -/
  sizeof_exit : Nat
  /-- C: `msg_hdr->code` -/
  hdr_code : List Nat → Nat
  /-- C: `msg_hdr->ver` -/
  hdr_ver : List Nat → Nat
  /-- C: `msg_hdr->pid` -/
  hdr_pid : List Nat → Nat
  /-- C: `((struct vma_msg_init *)msg_hdr)->ver` -/
  init_ver : List Nat → Nat
  /-- C: `((struct vma_msg_state *)msg_hdr)->fid` and the fields after it -/
  state_fid : List Nat → Nat
  state_type : List Nat → Nat
  state_state : List Nat → Nat
  state_src_ip : List Nat → Nat
  state_dst_ip : List Nat → Nat
  state_src_port : List Nat → Nat
  state_dst_port : List Nat → Nat
  /-- the assignment `msg_hdr->code = v` -/
  set_hdr_code : List Nat → Nat → List Nat
  /-- the assignment `msg_hdr->ver = v` -/
  set_hdr_ver : List Nat → Nat → List Nat

/-- Byte `off` of a buffer. -/
def rd8 (b : List Nat) (off : Nat) : Nat := b.getD off 0 % 256

/-- Host-native (little-endian) 16-bit field at `off`. -/
def rd16 (b : List Nat) (off : Nat) : Nat := rd8 b off + 256 * rd8 b (off + 1)

/-- Host-native (little-endian) 32-bit field at `off`. -/
def rd32 (b : List Nat) (off : Nat) : Nat := rd16 b off + 65536 * rd16 b (off + 2)

/-- Store of a byte at `off`. -/
def wr8 (b : List Nat) (off : Nat) (v : Nat) : List Nat := b.set off (v % 256)

/-- Modelled from the spec: `vma/util/agent.h` is missing; this is the layout
of spec sections 3 and 6 as packed structures with host-native encoding:
header = code (1 byte), version (1 byte), 2 reserved bytes, pid (4 bytes);
Init adds the 4-byte library version; State adds fid, src_ip, dst_ip
(4 bytes each), src_port, dst_port (2 bytes each), type and state (1 byte
each); Exit is the header alone.  The kind tags are 1, 2, 3 and the
acknowledgement flag is the reserved bit 0x80. -/
def vma_agent : agent_h where
  VMA_AGENT_VER := 1
  VMA_MSG_INIT := 1
  VMA_MSG_STATE := 2
  VMA_MSG_EXIT := 3
  VMA_MSG_ACK := 128
  CLOSED := 0
  SOCK_STREAM := 1
  sizeof_hdr := 8
  sizeof_init := 12
  sizeof_state := 26
  sizeof_exit := 8
  hdr_code := fun b => rd8 b 0
  hdr_ver := fun b => rd8 b 1
  hdr_pid := fun b => rd32 b 4
  init_ver := fun b => rd32 b 8
  state_fid := fun b => rd32 b 8
  state_src_ip := fun b => rd32 b 12
  state_dst_ip := fun b => rd32 b 16
  state_src_port := fun b => rd16 b 20
  state_dst_port := fun b => rd16 b 22
  state_type := fun b => rd8 b 24
  state_state := fun b => rd8 b 25
  set_hdr_code := fun b v => wr8 b 0 v
  set_hdr_ver := fun b v => wr8 b 1 v

/-! ## The associative map (`hash.h`) -/

/-- Modelled from the spec: `hash.h`/`hash.c` are missing.  Section 6 gives the
contract `create`, `get`, `put`, `delete`, `count`, `size`; sections 3 and 4
say that keys are unique and that the capacity is bounded.  The map is a list
of key/value entries together with its capacity. -/
structure hash_object (V : Type) where
  size : Nat
  table : List (Nat × V)
deriving DecidableEq, Repr

/-- Modelled from the spec: `create(capacity, destructor)` gives an empty map. -/
def hash_create (V : Type) (size : Nat) : hash_object V := ⟨size, []⟩

/-- Modelled from the spec: `count(handle)`. -/
def hash_count {V : Type} (ht : hash_object V) : Nat := ht.table.length

/-- Modelled from the spec: `size(handle)`. -/
def hash_size {V : Type} (ht : hash_object V) : Nat := ht.size

/-- Modelled from the spec: `get(handle, key) -> value | absent`. -/
def hash_get {V : Type} (ht : hash_object V) (key : Nat) : Option V :=
  (ht.table.find? (fun e => e.1 == key)).map (fun e => e.2)

/-- Modelled from the spec: `delete(handle, key)`: delete if present, no-op if
absent. -/
def hash_del {V : Type} (ht : hash_object V) (key : Nat) : hash_object V :=
  { ht with table := ht.table.filter (fun e => e.1 != key) }

/-- Modelled from the spec: `put(handle, key, value) -> previous_or_self |
failure`: insert or overwrite by key; fails (`none`, map unchanged) when the
capacity would be exceeded. -/
def hash_put {V : Type} (ht : hash_object V) (key : Nat) (value : V) :
    Option (hash_object V) :=
  if (hash_get ht key).isSome then
    some { ht with table := (key, value) :: ht.table.filter (fun e => e.1 != key) }
  else if hash_count ht < ht.size then
    some { ht with table := (key, value) :: ht.table }
  else
    none

/-- A store through the pointer that `hash_get` returned for `key`: the value
kept under `key` becomes `value`; keys and count do not change. -/
def hash_store {V : Type} (ht : hash_object V) (key : Nat) (value : V) : hash_object V :=
  { ht with table := ht.table.map (fun e => if e.1 = key then (e.1, value) else e) }

/-! ## Daemon state (`daemon.h`) -/

/-- C: `struct store_fid`: the fields the code assigns. -/
structure store_fid where
  fid : Nat
  type : Nat
  state : Nat
  src_ip : Nat
  dst_ip : Nat
  src_port : Nat
  dst_port : Nat
deriving DecidableEq, Repr

/-- C: `struct store_pid`: the fields the code assigns; `ht` is the table of the
process, owned by the session. -/
structure store_pid where
  pid : Nat
  lib_ver : Nat
  t_start : Nat
  ht : hash_object store_fid
deriving DecidableEq, Repr

/-- C: `struct sockaddr_un`. -/
structure sockaddr_un where
  sun_family : Nat
  sun_path : List Nat
deriving DecidableEq, Repr

/-- One call of `sys_sendto(daemon_cfg.sock_fd, data, sizeof(*data), 0, peeraddr, ..)`. -/
structure sendto_call where
  data : List Nat
  peeraddr : sockaddr_un
deriving DecidableEq, Repr

/-- The part of the global `daemon_cfg` the code uses, and the datagrams handed
to `sys_sendto` so far. -/
structure daemon where
  /-- C: `daemon_cfg.opt.max_fid_num` -/
  max_fid_num : Nat
  /-- C: `daemon_cfg.ht` -/
  ht : hash_object store_pid
  sent : List sendto_call
deriving DecidableEq, Repr

/-- What the system calls of one handler call return. -/
structure sys_calls where
  /-- C: `calloc` returned a non-NULL pointer -/
  calloc_ok : Bool
  /-- C: `hash_create` returned a non-NULL handle -/
  hash_create_ok : Bool
  /-- the time `gettimeofday` stores -/
  gettimeofday : Nat
  /-- the value `sys_sendto` returns -/
  sendto_rc : Int

/-! ## The handlers -/

/-- C: `proc_msg_init(msg_hdr, size, peeraddr)`: the result, the state after the
call, and the buffer after the call (the handler writes the header).  The
three `assert`s hold at the call in `proc_message` and are left out, as in
the other two handlers. -/
def proc_msg_init (A : agent_h) (sys : sys_calls) (d : daemon) (msg : List Nat)
    (size : Nat) (peeraddr : sockaddr_un) : Int × daemon × List Nat :=
  if size < A.sizeof_init then
    (-EBADMSG, d, msg)
  else if A.hdr_ver msg > A.VMA_AGENT_VER then
    (-EBADMSG, d, msg)
  else if !sys.calloc_ok then
    (-ENOMEM, d, msg)
  else if !sys.hash_create_ok then
    (-EFAULT, d, msg)
  else
    let value : store_pid :=
      { pid := A.hdr_pid msg, lib_ver := A.init_ver msg, t_start := sys.gettimeofday,
        ht := hash_create store_fid d.max_fid_num }
    match hash_put d.ht value.pid value with
    | none => (-EFAULT, d, msg)
    | some ht1 =>
      let msg1 := A.set_hdr_code msg (A.hdr_code msg ||| A.VMA_MSG_ACK)
      let msg2 := A.set_hdr_ver msg1 A.VMA_AGENT_VER
      ((A.sizeof_init : Int),
       { d with ht := ht1, sent := d.sent ++ [⟨msg2.take A.sizeof_init, peeraddr⟩] },
       msg2)

/-- C: `proc_msg_exit(msg_hdr, size)`. -/
def proc_msg_exit (A : agent_h) (d : daemon) (msg : List Nat) (size : Nat) : Int × daemon :=
  if size < A.sizeof_exit then
    (-EBADMSG, d)
  else
    ((A.sizeof_exit : Int), { d with ht := hash_del d.ht (A.hdr_pid msg) })

/-- C: `proc_msg_state(msg_hdr, size)`. -/
def proc_msg_state (A : agent_h) (sys : sys_calls) (d : daemon) (msg : List Nat)
    (size : Nat) : Int × daemon :=
  if size < A.sizeof_state then
    (-EBADMSG, d)
  else
    match hash_get d.ht (A.hdr_pid msg) with
    | none => (-ENOENT, d)
    | some pid_value =>
      if A.CLOSED = A.state_state msg ∧ A.SOCK_STREAM = A.state_type msg then
        ((A.sizeof_state : Int),
         { d with ht := hash_store d.ht (A.hdr_pid msg)
                    { pid_value with ht := hash_del pid_value.ht (A.state_fid msg) } })
      else if !sys.calloc_ok then
        (-ENOMEM, d)
      else
        let value : store_fid :=
          { fid := A.state_fid msg, type := A.state_type msg, state := A.state_state msg,
            src_ip := A.state_src_ip msg, dst_ip := A.state_dst_ip msg,
            src_port := A.state_src_port msg, dst_port := A.state_dst_port msg }
        match hash_put pid_value.ht value.fid value with
        | none => (-EFAULT, d)
        | some ht1 =>
          ((A.sizeof_state : Int),
           { d with ht := hash_store d.ht (A.hdr_pid msg) { pid_value with ht := ht1 } })

/-! ## The decode loop -/

/-- The `switch` of `proc_message` on `msg_hdr->code`: the handler's result, the
state and the buffer after it; `none` is the `default` case. -/
def dispatch (A : agent_h) (sys : sys_calls) (peeraddr : sockaddr_un) (len : Int)
    (d : daemon) (msg_recv : List Nat) : Option (Int × daemon × List Nat) :=
  if A.hdr_code msg_recv = A.VMA_MSG_INIT then
    some (proc_msg_init A sys d msg_recv len.toNat peeraddr)
  else if A.hdr_code msg_recv = A.VMA_MSG_STATE then
    let r := proc_msg_state A sys d msg_recv len.toNat
    some (r.1, r.2, msg_recv)
  else if A.hdr_code msg_recv = A.VMA_MSG_EXIT then
    let r := proc_msg_exit A d msg_recv len.toNat
    some (r.1, r.2, msg_recv)
  else
    none

/-- The loop `while (len > 0)` of `proc_message`, with the value of `rc` at its
head.  `env n` holds the results of the system calls of the n-th handler call
from here.  The result is the value `proc_message` returns, the state and the
buffer; `none` only when the fuel runs out. -/
def proc_message_loop (A : agent_h) (peeraddr : sockaddr_un) :
    Nat → (Nat → sys_calls) → Int → Int → daemon → List Nat → Option (Int × daemon × List Nat)
  | fuel, env, rc, len, d, msg_recv =>
    if len > 0 then
      match fuel with
      | 0 => none
      | fuel1 + 1 =>
        if len < (A.sizeof_hdr : Int) then
          some (-EBADMSG, d, msg_recv)
        else
          match dispatch A (env 0) peeraddr len d msg_recv with
          | none => some (-EPROTO, d, msg_recv)
          | some (rc1, d1, msg1) =>
            if 0 < rc1 then
              proc_message_loop A peeraddr fuel1 (fun n => env (n + 1)) 0 (len - rc1) d1 msg1
            else
              some (rc1, d1, msg1)
    else
      some (rc, d, msg_recv)

/-- What one call of `recvfrom` leaves behind: its return value, the buffer,
the peer address and `errno`. -/
structure recvfrom_result where
  len : Int
  msg_recv : List Nat
  peeraddr : sockaddr_un
  errno : Int

/-- C: `proc_message()`: `recvs` are the results of the successive `recvfrom`
calls (a call interrupted with `EINTR` is repeated).  The result is the
returned value and the state; `none` when `recvs` ends in interrupted calls. -/
def proc_message (A : agent_h) (env : Nat → sys_calls) :
    List recvfrom_result → daemon → Option (Int × daemon)
  | [], _ => none
  | r :: rest, d =>
    if r.len < 0 ∨ r.len < (A.sizeof_hdr : Int) then
      if r.errno = EINTR then
        proc_message A env rest d
      else
        some (-r.errno, d)
    else
      (proc_message_loop A r.peeraddr r.len.toNat env 0 r.len d r.msg_recv).map
        (fun x => (x.1, x.2.1))

/-- A successful `recvfrom` that delivered the datagram `buf` from `peer`. -/
def received (buf : List Nat) (peer : sockaddr_un) : recvfrom_result :=
  { len := buf.length, msg_recv := buf, peeraddr := peer, errno := 0 }

/-! ## Encoding of messages in the layout `vma_agent` (test inputs) -/

/-- Two bytes of a 16-bit value, low byte first. -/
def le16 (v : Nat) : List Nat := [v % 256, v / 256 % 256]

/-- Four bytes of a 32-bit value, low byte first. -/
def le32 (v : Nat) : List Nat := le16 (v % 65536) ++ le16 (v / 65536)

/-- A `struct vma_hdr` in the layout `vma_agent`. -/
def enc_hdr (code ver pid : Nat) : List Nat := [code % 256, ver % 256, 0, 0] ++ le32 pid

/-- A `struct vma_msg_init` in the layout `vma_agent`. -/
def enc_init (ver pid lib_ver : Nat) : List Nat := enc_hdr 1 ver pid ++ le32 lib_ver

/-- A `struct vma_msg_exit` in the layout `vma_agent`. -/
def enc_exit (ver pid : Nat) : List Nat := enc_hdr 3 ver pid

/-- A `struct vma_msg_state` in the layout `vma_agent`. -/
def enc_state (ver pid : Nat) (v : store_fid) : List Nat :=
  enc_hdr 2 ver pid ++ le32 v.fid ++ le32 v.src_ip ++ le32 v.dst_ip ++ le16 v.src_port ++
    le16 v.dst_port ++ [v.type % 256, v.state % 256]

/-- The system calls all succeed. -/
def sys_ok : sys_calls :=
  { calloc_ok := true, hash_create_ok := true, gettimeofday := 0, sendto_rc := 0 }

/-- A peer address. -/
def peer0 : sockaddr_un := { sun_family := 1, sun_path := [] }

/-- The daemon at start: an empty registry for `max_pid_num` processes. -/
def daemon_start (max_pid_num max_fid_num : Nat) : daemon :=
  { max_fid_num := max_fid_num, ht := hash_create store_pid max_pid_num, sent := [] }

/-- A daemon in which pid 100 is registered (library version 7) and tracks no
socket; registry and tables have room for 4 entries. -/
def daemon_pid100 : daemon :=
  { max_fid_num := 4,
    ht := ⟨4, [(100, ⟨100, 7, 0, ⟨4, []⟩⟩)]⟩,
    sent := [] }

/-- The record under `fid` of the process `pid`, if both are tracked. -/
def socket_of (d : daemon) (pid fid : Nat) : Option store_fid :=
  (hash_get d.ht pid).bind (fun s => hash_get s.ht fid)

/-- The record `proc_msg_state` builds from a message. -/
def record_of (A : agent_h) (msg : List Nat) : store_fid :=
  { fid := A.state_fid msg, type := A.state_type msg, state := A.state_state msg,
    src_ip := A.state_src_ip msg, dst_ip := A.state_dst_ip msg,
    src_port := A.state_src_port msg, dst_port := A.state_dst_port msg }

/-- A daemon in which pid 100 is registered and tracks fid 5, a stream socket
in state 4, and pid 200 is registered too. -/
def daemon_pid100_fid5 : daemon :=
  { max_fid_num := 4,
    ht := ⟨4, [(100, ⟨100, 7, 0, ⟨4, [(5, ⟨5, 1, 4, 10, 20, 30, 40⟩)]⟩⟩),
               (200, ⟨200, 7, 0, ⟨4, [(9, ⟨9, 2, 0, 1, 2, 3, 4⟩)]⟩⟩)]⟩,
    sent := [] }

/-- Field independence of the structure overlay: the two header assignments of
`proc_msg_init` change the assigned field and no other field of the Init
message, the assigned values fit their fields, and the fields of a message
lie within its first `sizeof` bytes. -/
structure agent_h.overlay_ok (A : agent_h) : Prop where
  hdr_le_init : A.sizeof_hdr ≤ A.sizeof_init
  length_set_code : ∀ b v, (A.set_hdr_code b v).length = b.length
  length_set_ver : ∀ b v, (A.set_hdr_ver b v).length = b.length
  code_set_code : ∀ b, A.sizeof_hdr ≤ b.length →
    A.hdr_code (A.set_hdr_code b (A.hdr_code b ||| A.VMA_MSG_ACK))
      = A.hdr_code b ||| A.VMA_MSG_ACK
  ver_set_ver : ∀ b, A.sizeof_hdr ≤ b.length →
    A.hdr_ver (A.set_hdr_ver b A.VMA_AGENT_VER) = A.VMA_AGENT_VER
  code_set_ver : ∀ b v, A.hdr_code (A.set_hdr_ver b v) = A.hdr_code b
  ver_set_code : ∀ b v, A.hdr_ver (A.set_hdr_code b v) = A.hdr_ver b
  pid_set_code : ∀ b v, A.hdr_pid (A.set_hdr_code b v) = A.hdr_pid b
  pid_set_ver : ∀ b v, A.hdr_pid (A.set_hdr_ver b v) = A.hdr_pid b
  init_ver_set_code : ∀ b v, A.init_ver (A.set_hdr_code b v) = A.init_ver b
  init_ver_set_ver : ∀ b v, A.init_ver (A.set_hdr_ver b v) = A.init_ver b
  code_take : ∀ b n, A.sizeof_hdr ≤ n → A.hdr_code (b.take n) = A.hdr_code b
  ver_take : ∀ b n, A.sizeof_hdr ≤ n → A.hdr_ver (b.take n) = A.hdr_ver b
  pid_take : ∀ b n, A.sizeof_hdr ≤ n → A.hdr_pid (b.take n) = A.hdr_pid b
  init_ver_take : ∀ b n, A.sizeof_init ≤ n → A.init_ver (b.take n) = A.init_ver b

/-- The `case` labels of the `switch` in `proc_message` are different values. -/
def agent_h.distinct_kinds (A : agent_h) : Prop :=
  A.VMA_MSG_INIT ≠ A.VMA_MSG_STATE ∧ A.VMA_MSG_INIT ≠ A.VMA_MSG_EXIT ∧
    A.VMA_MSG_STATE ≠ A.VMA_MSG_EXIT

/-- The bit `VMA_MSG_ACK` is set in none of the three kind tags. -/
def agent_h.ack_reserved (A : agent_h) : Prop :=
  A.VMA_MSG_INIT &&& A.VMA_MSG_ACK = 0 ∧ A.VMA_MSG_STATE &&& A.VMA_MSG_ACK = 0 ∧
    A.VMA_MSG_EXIT &&& A.VMA_MSG_ACK = 0

/-- The remaining length, the state and the buffer at the head of the loop of
`proc_message` after `k` iterations whose handlers returned a positive value;
`none` when the loop is left within these `k` iterations. -/
def loop_after (A : agent_h) (peeraddr : sockaddr_un) :
    Nat → (Nat → sys_calls) → Int → daemon → List Nat → Option (Int × daemon × List Nat)
  | 0, _, len, d, msg_recv => some (len, d, msg_recv)
  | k + 1, env, len, d, msg_recv =>
    if 0 < len ∧ ¬ len < (A.sizeof_hdr : Int) then
      match dispatch A (env 0) peeraddr len d msg_recv with
      | none => none
      | some (rc1, d1, msg1) =>
        if 0 < rc1 then loop_after A peeraddr k (fun n => env (n + 1)) (len - rc1) d1 msg1
        else none
    else
      none

/-- The remaining length `len` does not hold a whole message of the kind the
header at the start of the buffer names, or not even a header. -/
def short_message (A : agent_h) (len : Int) (msg_recv : List Nat) : Prop :=
  len < (A.sizeof_hdr : Int) ∨
  (A.hdr_code msg_recv = A.VMA_MSG_INIT ∧ len < (A.sizeof_init : Int)) ∨
  (A.hdr_code msg_recv = A.VMA_MSG_STATE ∧ len < (A.sizeof_state : Int)) ∨
  (A.hdr_code msg_recv = A.VMA_MSG_EXIT ∧ len < (A.sizeof_exit : Int))

/-- The sizes of the message structures: a header is not empty and every message
starts with a header. -/
def agent_h.sizes_ok (A : agent_h) : Prop :=
  0 < A.sizeof_hdr ∧ A.sizeof_hdr ≤ A.sizeof_init ∧ A.sizeof_hdr ≤ A.sizeof_state ∧
    A.sizeof_hdr ≤ A.sizeof_exit

/-- A buffer that holds exactly one valid message of the process `pid`: an Init
with an accepted header version, a State, or an Exit, of its full size. -/
def valid_message (A : agent_h) (pid : Nat) (b : List Nat) : Prop :=
  A.hdr_pid b = pid ∧
  ((A.hdr_code b = A.VMA_MSG_INIT ∧ b.length = A.sizeof_init ∧
      A.hdr_ver b ≤ A.VMA_AGENT_VER) ∨
   (A.hdr_code b = A.VMA_MSG_STATE ∧ b.length = A.sizeof_state) ∨
   (A.hdr_code b = A.VMA_MSG_EXIT ∧ b.length = A.sizeof_exit))

instance valid_message_decidable (A : agent_h) (pid : Nat) (b : List Nat) :
    Decidable (valid_message A pid b) := by
  unfold valid_message
  infer_instance

/-- A daemon whose registry is full with pid 100 and whose tables have room for
one socket; pid 100 tracks fid 5. -/
def daemon_full : daemon :=
  { max_fid_num := 1,
    ht := ⟨1, [(100, ⟨100, 7, 0, ⟨1, [(5, ⟨5, 1, 4, 10, 20, 30, 40⟩)]⟩⟩)]⟩,
    sent := [] }

/-- The assignment of the header version changes neither the pid nor a field of
the State payload. -/
structure agent_h.ver_frame (A : agent_h) : Prop where
  pid : ∀ b v, A.hdr_pid (A.set_hdr_ver b v) = A.hdr_pid b
  fid : ∀ b v, A.state_fid (A.set_hdr_ver b v) = A.state_fid b
  type : ∀ b v, A.state_type (A.set_hdr_ver b v) = A.state_type b
  state : ∀ b v, A.state_state (A.set_hdr_ver b v) = A.state_state b
  src_ip : ∀ b v, A.state_src_ip (A.set_hdr_ver b v) = A.state_src_ip b
  dst_ip : ∀ b v, A.state_dst_ip (A.set_hdr_ver b v) = A.state_dst_ip b
  src_port : ∀ b v, A.state_src_port (A.set_hdr_ver b v) = A.state_src_port b
  dst_port : ∀ b v, A.state_dst_port (A.set_hdr_ver b v) = A.state_dst_port b

/-- The number of times the body of the loop `while (len > 0)` of `proc_message`
is entered, the last time included in which the loop is left through
`goto err`. -/
def loop_iterations (A : agent_h) (peeraddr : sockaddr_un) :
    Nat → (Nat → sys_calls) → Int → daemon → List Nat → Nat
  | fuel, env, len, d, msg_recv =>
    if len > 0 then
      match fuel with
      | 0 => 0
      | fuel1 + 1 =>
        if len < (A.sizeof_hdr : Int) then
          1
        else
          match dispatch A (env 0) peeraddr len d msg_recv with
          | none => 1
          | some (rc1, d1, msg1) =>
            if 0 < rc1 then
              1 + loop_iterations A peeraddr fuel1 (fun n => env (n + 1)) (len - rc1) d1 msg1
            else
              1
    else
      0

/-- No key occurs twice among the entries of a map. -/
def hash_keys_unique {V : Type} (ht : hash_object V) : Prop :=
  (ht.table.map (fun e => e.1)).Nodup

/-- The states the daemon reaches from an empty registry by calls of the three
handlers, with any messages, lengths and results of system calls. -/
inductive reachable (A : agent_h) : daemon → Prop
  | start (max_pid_num max_fid_num : Nat) :
      reachable A (daemon_start max_pid_num max_fid_num)
  | init (sys : sys_calls) (d : daemon) (msg : List Nat) (size : Nat) (peeraddr : sockaddr_un) :
      reachable A d → reachable A (proc_msg_init A sys d msg size peeraddr).2.1
  | state (sys : sys_calls) (d : daemon) (msg : List Nat) (size : Nat) :
      reachable A d → reachable A (proc_msg_state A sys d msg size).2
  | exit (d : daemon) (msg : List Nat) (size : Nat) :
      reachable A d → reachable A (proc_msg_exit A d msg size).2

/-- Every record of a socket table is stored under its own fid, and none is a
closed stream socket. -/
def table_ok (A : agent_h) (t : hash_object store_fid) : Prop :=
  ∀ e ∈ t.table, e.2.fid = e.1 ∧ ¬ (e.2.type = A.SOCK_STREAM ∧ e.2.state = A.CLOSED)

/-- Every session of the registry is stored under its own pid, and its table is
in order. -/
def registry_ok (A : agent_h) (d : daemon) : Prop :=
  ∀ e ∈ d.ht.table, e.2.pid = e.1 ∧ table_ok A e.2.ht

/-- The state after Init for pid 100, a State for the stream socket fid 5, a State
that closes fid 5 and a State for the datagram socket fid 6 in state `CLOSED`,
from the daemon at start. -/
def daemon_after_four : daemon :=
  (proc_msg_state vma_agent sys_ok
    (proc_msg_state vma_agent sys_ok
      (proc_msg_state vma_agent sys_ok
        (proc_msg_init vma_agent sys_ok (daemon_start 4 4) (enc_init 1 100 7) 12 peer0).2.1
        (enc_state 1 100 ⟨5, 1, 4, 10, 20, 30, 40⟩) 26).2
      (enc_state 1 100 ⟨5, 1, 0, 10, 20, 30, 40⟩) 26).2
    (enc_state 1 100 ⟨6, 2, 0, 11, 21, 31, 41⟩) 26).2

/-- The size of the largest message structure. -/
def agent_h.max_size (A : agent_h) : Nat :=
  max A.sizeof_init (max A.sizeof_state A.sizeof_exit)

/-- The structure overlay stays within the first `max_size` bytes of the buffer:
two buffers with the same first `max_size` bytes have the same fields, and
the same header assignment leaves them with the same first `max_size`
bytes. -/
structure agent_h.prefix_ok (A : agent_h) : Prop where
  code : ∀ b1 b2, b1.take A.max_size = b2.take A.max_size → A.hdr_code b1 = A.hdr_code b2
  ver : ∀ b1 b2, b1.take A.max_size = b2.take A.max_size → A.hdr_ver b1 = A.hdr_ver b2
  pid : ∀ b1 b2, b1.take A.max_size = b2.take A.max_size → A.hdr_pid b1 = A.hdr_pid b2
  init_ver : ∀ b1 b2, b1.take A.max_size = b2.take A.max_size → A.init_ver b1 = A.init_ver b2
  fid : ∀ b1 b2, b1.take A.max_size = b2.take A.max_size → A.state_fid b1 = A.state_fid b2
  type : ∀ b1 b2, b1.take A.max_size = b2.take A.max_size → A.state_type b1 = A.state_type b2
  state : ∀ b1 b2, b1.take A.max_size = b2.take A.max_size →
    A.state_state b1 = A.state_state b2
  src_ip : ∀ b1 b2, b1.take A.max_size = b2.take A.max_size →
    A.state_src_ip b1 = A.state_src_ip b2
  dst_ip : ∀ b1 b2, b1.take A.max_size = b2.take A.max_size →
    A.state_dst_ip b1 = A.state_dst_ip b2
  src_port : ∀ b1 b2, b1.take A.max_size = b2.take A.max_size →
    A.state_src_port b1 = A.state_src_port b2
  dst_port : ∀ b1 b2, b1.take A.max_size = b2.take A.max_size →
    A.state_dst_port b1 = A.state_dst_port b2
  set_code : ∀ b1 b2 v, b1.take A.max_size = b2.take A.max_size →
    (A.set_hdr_code b1 v).take A.max_size = (A.set_hdr_code b2 v).take A.max_size
  set_ver : ∀ b1 b2 v, b1.take A.max_size = b2.take A.max_size →
    (A.set_hdr_ver b1 v).take A.max_size = (A.set_hdr_ver b2 v).take A.max_size

/-! ## The map contract -/

theorem hash_get_del {V : Type} (ht : hash_object V) (k k1 : Nat) :
    hash_get (hash_del ht k) k1 = if k1 = k then none else hash_get ht k1 := by
  obtain ⟨sz, l⟩ := ht
  simp only [hash_get, hash_del]
  induction l with
  | nil => simp
  | cons e l ih =>
    by_cases h1 : e.1 = k
    · by_cases h2 : k1 = k
      · simp_all [List.filter_cons]
      · have h3 : ¬ e.1 = k1 := fun h => h2 (h ▸ h1)
        simp_all [List.filter_cons, List.find?_cons]
    · by_cases h2 : e.1 = k1
      · have h3 : ¬ k1 = k := fun h => h1 (h2 ▸ h)
        simp_all [List.filter_cons, List.find?_cons]
      · simp_all [List.filter_cons, List.find?_cons]

theorem hash_get_put {V : Type} (ht ht1 : hash_object V) (k k1 : Nat) (v : V)
    (h : hash_put ht k v = some ht1) :
    hash_get ht1 k1 = if k1 = k then some v else hash_get ht k1 := by
  unfold hash_put at h
  split at h
  · cases h
    have := hash_get_del ht k k1
    simp only [hash_get, hash_del] at this ⊢
    by_cases h2 : k1 = k
    · simp [List.find?_cons, h2]
    · have h3 : ¬ k = k1 := fun h => h2 h.symm
      simp [List.find?_cons, h2, h3] at this ⊢
      exact this
  · split at h
    · cases h
      simp only [hash_get]
      by_cases h2 : k1 = k
      · simp [List.find?_cons, h2]
      · have h3 : ¬ k = k1 := fun h => h2 h.symm
        simp [List.find?_cons, h2, h3]
    · cases h

theorem hash_get_store {V : Type} (ht : hash_object V) (k k1 : Nat) (v : V) :
    hash_get (hash_store ht k v) k1
      = if k1 = k then (hash_get ht k).map (fun _ => v) else hash_get ht k1 := by
  obtain ⟨sz, l⟩ := ht
  simp only [hash_get, hash_store]
  induction l with
  | nil => simp
  | cons e l ih =>
    by_cases h2 : k1 = k
    · subst h2
      by_cases h1 : e.1 = k1
      · simp [List.find?_cons, h1]
      · simp [List.find?_cons, h1] at ih ⊢
        exact ih
    · by_cases h1 : e.1 = k
      · have h3 : ¬ e.1 = k1 := fun h => h2 (h ▸ h1)
        have h4 : ¬ k = k1 := fun h => h2 h.symm
        simp [List.find?_cons, h1, h2, h3, h4] at ih ⊢
        exact ih
      · by_cases h3 : e.1 = k1
        · simp [List.find?_cons, h1, h2, h3]
        · simp [List.find?_cons, h1, h2, h3] at ih ⊢
          exact ih
/-! ## The handlers, case by case -/

/-- The session `proc_msg_init` builds from a message. -/
theorem proc_msg_init_ok (A : agent_h) (sys : sys_calls) (d : daemon) (msg : List Nat)
    (size : Nat) (peeraddr : sockaddr_un) (ht1 : hash_object store_pid)
    (h1 : A.sizeof_init ≤ size) (h2 : A.hdr_ver msg ≤ A.VMA_AGENT_VER)
    (h3 : sys.calloc_ok = true) (h4 : sys.hash_create_ok = true)
    (hput : hash_put d.ht (A.hdr_pid msg)
      ⟨A.hdr_pid msg, A.init_ver msg, sys.gettimeofday, hash_create store_fid d.max_fid_num⟩
        = some ht1) :
    proc_msg_init A sys d msg size peeraddr =
      ((A.sizeof_init : Int),
       { d with ht := ht1,
                sent := d.sent ++
                  [⟨(A.set_hdr_ver (A.set_hdr_code msg (A.hdr_code msg ||| A.VMA_MSG_ACK))
                      A.VMA_AGENT_VER).take A.sizeof_init, peeraddr⟩] },
       A.set_hdr_ver (A.set_hdr_code msg (A.hdr_code msg ||| A.VMA_MSG_ACK)) A.VMA_AGENT_VER) := by
  unfold proc_msg_init
  simp [Nat.not_lt.mpr h1, Nat.not_lt.mpr h2, h3, h4, hput]

/-- A result of `proc_msg_init` that is not negative comes from the last branch. -/
theorem proc_msg_init_nonneg (A : agent_h) (sys : sys_calls) (d : daemon) (msg : List Nat)
    (size : Nat) (peeraddr : sockaddr_un)
    (h : 0 ≤ (proc_msg_init A sys d msg size peeraddr).1) :
    A.sizeof_init ≤ size ∧ A.hdr_ver msg ≤ A.VMA_AGENT_VER ∧ sys.calloc_ok = true ∧
      sys.hash_create_ok = true ∧
      ∃ ht1, hash_put d.ht (A.hdr_pid msg)
        ⟨A.hdr_pid msg, A.init_ver msg, sys.gettimeofday, hash_create store_fid d.max_fid_num⟩
          = some ht1 := by
  unfold proc_msg_init at h
  by_cases h1 : size < A.sizeof_init
  · simp [h1, EBADMSG] at h
  by_cases h2 : A.hdr_ver msg > A.VMA_AGENT_VER
  · simp [h1, h2, EBADMSG] at h
  cases h3 : sys.calloc_ok
  · simp [h1, h2, h3, ENOMEM] at h
  cases h4 : sys.hash_create_ok
  · simp [h1, h2, h3, h4, EFAULT] at h
  cases hput : hash_put d.ht (A.hdr_pid msg)
      ⟨A.hdr_pid msg, A.init_ver msg, sys.gettimeofday, hash_create store_fid d.max_fid_num⟩ with
  | none => simp [h1, h2, h3, h4, hput, EFAULT] at h
  | some ht1 => exact ⟨Nat.le_of_not_lt h1, Nat.le_of_not_lt h2, rfl, rfl, ht1, rfl⟩

/-- A negative result of `proc_msg_init` leaves state and buffer as they were. -/
theorem proc_msg_init_neg (A : agent_h) (sys : sys_calls) (d : daemon) (msg : List Nat)
    (size : Nat) (peeraddr : sockaddr_un)
    (h : (proc_msg_init A sys d msg size peeraddr).1 < 0) :
    (proc_msg_init A sys d msg size peeraddr).2 = (d, msg) := by
  unfold proc_msg_init at h ⊢
  by_cases h1 : size < A.sizeof_init
  · simp [h1]
  by_cases h2 : A.hdr_ver msg > A.VMA_AGENT_VER
  · simp [h1, h2]
  cases h3 : sys.calloc_ok
  · simp [h1, h2, h3]
  cases h4 : sys.hash_create_ok
  · simp [h1, h2, h3, h4]
  cases hput : hash_put d.ht (A.hdr_pid msg)
      ⟨A.hdr_pid msg, A.init_ver msg, sys.gettimeofday, hash_create store_fid d.max_fid_num⟩ with
  | none => simp [h1, h2, h3, h4, hput]
  | some ht1 =>
    simp only [h1, h2, h3, h4, hput] at h
    simp at h
    omega
/-! ## Two State messages in one buffer -/

/-- C1, the code at the failing input: pid 100 is registered; the buffer holds a
State message for fid 5 reporting state 4 followed by a State message for
fid 5 reporting state 2.  `proc_message` returns 0 and the record stored under
fid 5 is the one of the first message: the second loop iteration reads the
header at the start of the buffer again.  Handling the two messages one after
the other stores the record of the second message. -/
theorem c1_two_states_one_buffer_keeps_first :
    (proc_message vma_agent (fun _ => sys_ok)
        [received (enc_state 1 100 ⟨5, 1, 4, 10, 20, 30, 40⟩ ++
                   enc_state 1 100 ⟨5, 1, 2, 11, 21, 31, 41⟩) peer0] daemon_pid100).map
        (fun r => (r.1, socket_of r.2 100 5))
      = some (0, some ⟨5, 1, 4, 10, 20, 30, 40⟩) ∧
    socket_of
        (proc_msg_state vma_agent sys_ok
          (proc_msg_state vma_agent sys_ok daemon_pid100
            (enc_state 1 100 ⟨5, 1, 4, 10, 20, 30, 40⟩) 26).2
          (enc_state 1 100 ⟨5, 1, 2, 11, 21, 31, 41⟩) 26).2 100 5
      = some ⟨5, 1, 2, 11, 21, 31, 41⟩ := by
  constructor <;> decide

/-! ## Init: the version check -/

/-- The value `proc_msg_state` returns for an unregistered pid. -/
theorem proc_msg_state_noent (A : agent_h) (sys : sys_calls) (d : daemon) (msg : List Nat)
    (size : Nat) (h1 : A.sizeof_state ≤ size) (h2 : hash_get d.ht (A.hdr_pid msg) = none) :
    proc_msg_state A sys d msg size = (-ENOENT, d) := by
  unfold proc_msg_state
  simp [Nat.not_lt.mpr h1, h2]

/-- The removal branch of `proc_msg_state`. -/
theorem proc_msg_state_closed (A : agent_h) (sys : sys_calls) (d : daemon) (msg : List Nat)
    (size : Nat) (s : store_pid) (h1 : A.sizeof_state ≤ size)
    (h2 : hash_get d.ht (A.hdr_pid msg) = some s)
    (h3 : A.state_state msg = A.CLOSED) (h4 : A.state_type msg = A.SOCK_STREAM) :
    proc_msg_state A sys d msg size =
      ((A.sizeof_state : Int),
       { d with ht := hash_store d.ht (A.hdr_pid msg)
                  { s with ht := hash_del s.ht (A.state_fid msg) } }) := by
  unfold proc_msg_state
  simp [Nat.not_lt.mpr h1, h2, h3, h4]

/-- The update branch of `proc_msg_state`. -/
theorem proc_msg_state_put (A : agent_h) (sys : sys_calls) (d : daemon) (msg : List Nat)
    (size : Nat) (s : store_pid) (ht1 : hash_object store_fid) (h1 : A.sizeof_state ≤ size)
    (h2 : hash_get d.ht (A.hdr_pid msg) = some s)
    (h3 : ¬ (A.CLOSED = A.state_state msg ∧ A.SOCK_STREAM = A.state_type msg))
    (h4 : sys.calloc_ok = true)
    (hput : hash_put s.ht (A.state_fid msg) (record_of A msg) = some ht1) :
    proc_msg_state A sys d msg size =
      ((A.sizeof_state : Int),
       { d with ht := hash_store d.ht (A.hdr_pid msg) { s with ht := ht1 } }) := by
  unfold record_of at hput
  unfold proc_msg_state
  simp only [Nat.not_lt.mpr h1, h2, h3, h4, hput, if_false, Bool.not_true]
  simp

/-- The handler `proc_msg_state` never touches the datagram trace or the limits. -/
theorem proc_msg_state_sent (A : agent_h) (sys : sys_calls) (d : daemon) (msg : List Nat)
    (size : Nat) :
    (proc_msg_state A sys d msg size).2.sent = d.sent ∧
      (proc_msg_state A sys d msg size).2.max_fid_num = d.max_fid_num := by
  unfold proc_msg_state
  by_cases h1 : size < A.sizeof_state
  · simp [h1]
  cases h2 : hash_get d.ht (A.hdr_pid msg) with
  | none => simp [h1]
  | some s =>
    by_cases h3 : A.CLOSED = A.state_state msg ∧ A.SOCK_STREAM = A.state_type msg
    · simp [h1, h3]
    cases h4 : sys.calloc_ok
    · simp [h1, h3]
    cases hput : hash_put s.ht (A.state_fid msg)
        ⟨A.state_fid msg, A.state_type msg, A.state_state msg, A.state_src_ip msg,
         A.state_dst_ip msg, A.state_src_port msg, A.state_dst_port msg⟩ with
    | none => simp [h1, h3, hput]
    | some ht1 => simp [h1, h3, hput]
/-- C3: a full-size Init message whose header protocol version exceeds
`VMA_AGENT_VER` makes `proc_msg_init` return `-EBADMSG`, a negative value;
the state after the call is the state before it (registry unchanged, nothing
handed to `sys_sendto`) and the buffer is untouched. -/
theorem c3_init_newer_version_rejected (A : agent_h) (sys : sys_calls) (d : daemon)
    (msg : List Nat) (size : Nat) (peeraddr : sockaddr_un)
    (hsize : A.sizeof_init ≤ size) (hver : A.VMA_AGENT_VER < A.hdr_ver msg) :
    (proc_msg_init A sys d msg size peeraddr).1 = -EBADMSG ∧
    (proc_msg_init A sys d msg size peeraddr).1 < 0 ∧
    (proc_msg_init A sys d msg size peeraddr).2.1 = d ∧
    (proc_msg_init A sys d msg size peeraddr).2.1.ht = d.ht ∧
    (proc_msg_init A sys d msg size peeraddr).2.1.sent = d.sent ∧
    (proc_msg_init A sys d msg size peeraddr).2.2 = msg := by
  have h : proc_msg_init A sys d msg size peeraddr = (-EBADMSG, d, msg) := by
    unfold proc_msg_init
    simp [Nat.not_lt.mpr hsize, hver]
  rw [h]
  simp [EBADMSG]

/-- C3, witness: an Init message with header version 2 while `VMA_AGENT_VER` is 1,
sent to a daemon in which pid 100 is registered. -/
theorem c3_init_newer_version_rejected_witness :
    vma_agent.sizeof_init ≤ 12 ∧
    vma_agent.VMA_AGENT_VER < vma_agent.hdr_ver (enc_init 2 100 7) ∧
    (proc_msg_init vma_agent sys_ok daemon_pid100 (enc_init 2 100 7) 12 peer0).2.1
      = daemon_pid100 :=
  ⟨by decide, by decide,
   (c3_init_newer_version_rejected vma_agent sys_ok daemon_pid100 (enc_init 2 100 7) 12 peer0
      (by decide) (by decide)).2.2.1⟩

/-! ## State: removal of a closed stream socket -/

/-- C4: pid `p` is registered with session `s`.  A full-size State message for `p`
with type `SOCK_STREAM` and state `CLOSED` makes `proc_msg_state` return
`sizeof(struct vma_msg_state)`; afterwards `p` is registered with the session
`s` whose table is the old table with the fid erased: the fid is absent, every
other fid keeps its record, every other pid keeps its session, nothing is
sent.  When the fid was not tracked the table keeps all its lookups.
Scenario: from a registry with room for `p` and tables with room for one
socket, Init for `p`, then a State for fid `f` with type `SOCK_STREAM` and a
state other than `CLOSED`, then a State for `f` with `SOCK_STREAM` and `CLOSED`
leave `p` registered with an empty table. -/
theorem c4_state_stream_closed_erases (A : agent_h) (sys : sys_calls) (d : daemon)
    (msg : List Nat) (size : Nat) (s : store_pid)
    (sys1 sys2 sys3 : sys_calls) (d0 : daemon) (b1 b2 b3 : List Nat) (n1 n2 n3 : Nat)
    (peeraddr : sockaddr_un)
    (hreg : hash_get d.ht (A.hdr_pid msg) = some s)
    (hsize : A.sizeof_state ≤ size)
    (htype : A.state_type msg = A.SOCK_STREAM) (hstate : A.state_state msg = A.CLOSED)
    (hn1 : A.sizeof_init ≤ n1) (hv1 : A.hdr_ver b1 ≤ A.VMA_AGENT_VER)
    (hc1 : sys1.calloc_ok = true) (hh1 : sys1.hash_create_ok = true)
    (hroom : (hash_get d0.ht (A.hdr_pid b1)).isSome ∨ hash_count d0.ht < hash_size d0.ht)
    (hfid : 0 < d0.max_fid_num)
    (hn2 : A.sizeof_state ≤ n2) (hp2 : A.hdr_pid b2 = A.hdr_pid b1)
    (_ht2 : A.state_type b2 = A.SOCK_STREAM) (hs2 : A.state_state b2 ≠ A.CLOSED)
    (hc2 : sys2.calloc_ok = true)
    (hn3 : A.sizeof_state ≤ n3) (hp3 : A.hdr_pid b3 = A.hdr_pid b1)
    (hf3 : A.state_fid b3 = A.state_fid b2)
    (ht3 : A.state_type b3 = A.SOCK_STREAM) (hs3 : A.state_state b3 = A.CLOSED) :
    (proc_msg_state A sys d msg size).1 = (A.sizeof_state : Int) ∧
    hash_get (proc_msg_state A sys d msg size).2.ht (A.hdr_pid msg)
      = some { s with ht := hash_del s.ht (A.state_fid msg) } ∧
    hash_get (hash_del s.ht (A.state_fid msg)) (A.state_fid msg) = none ∧
    (∀ k, k ≠ A.state_fid msg →
      hash_get (hash_del s.ht (A.state_fid msg)) k = hash_get s.ht k) ∧
    (hash_get s.ht (A.state_fid msg) = none →
      ∀ k, hash_get (hash_del s.ht (A.state_fid msg)) k = hash_get s.ht k) ∧
    (∀ q, q ≠ A.hdr_pid msg →
      hash_get (proc_msg_state A sys d msg size).2.ht q = hash_get d.ht q) ∧
    (proc_msg_state A sys d msg size).2.sent = d.sent ∧
    (let e1 := (proc_msg_init A sys1 d0 b1 n1 peeraddr).2.1
     let e2 := (proc_msg_state A sys2 e1 b2 n2).2
     let e3 := (proc_msg_state A sys3 e2 b3 n3).2
     hash_get e3.ht (A.hdr_pid b1)
       = some ⟨A.hdr_pid b1, A.init_ver b1, sys1.gettimeofday,
               hash_create store_fid d0.max_fid_num⟩ ∧
     (hash_create store_fid d0.max_fid_num).table = []) := by
  rw [proc_msg_state_closed A sys d msg size s hsize hreg hstate htype]
  refine ⟨rfl, ?_, ?_, ?_, ?_, ?_, rfl, ?_⟩
  · simp [hash_get_store, hreg]
  · simp [hash_get_del]
  · intro k hk
    simp [hash_get_del, hk]
  · intro habs k
    by_cases hk : k = A.state_fid msg
    · simp [hash_get_del, hk, habs]
    · simp [hash_get_del, hk]
  · intro q hq
    simp [hash_get_store, hq]
  · -- the scenario
    have hput1 : ∃ r1, hash_put d0.ht (A.hdr_pid b1)
        ⟨A.hdr_pid b1, A.init_ver b1, sys1.gettimeofday,
         hash_create store_fid d0.max_fid_num⟩ = some r1 := by
      unfold hash_put
      rcases hroom with h | h
      · simp [h]
      · by_cases h0 : (hash_get d0.ht (A.hdr_pid b1)).isSome
        · simp [h0]
        · simp only [h0, hash_size] at h ⊢
          simp [h]
    obtain ⟨r1, hput1⟩ := hput1
    have hg1 := hash_get_put _ _ (A.hdr_pid b1) (A.hdr_pid b1) _ hput1
    simp only [if_true] at hg1
    have e1 := proc_msg_init_ok A sys1 d0 b1 n1 peeraddr r1 hn1 hv1 hc1 hh1 hput1
    have hnot : ¬ (A.CLOSED = A.state_state b2 ∧ A.SOCK_STREAM = A.state_type b2) :=
      fun h => hs2 h.1.symm
    have hput2 : hash_put (hash_create store_fid d0.max_fid_num) (A.state_fid b2)
        (record_of A b2)
        = some ⟨d0.max_fid_num, [(A.state_fid b2, record_of A b2)]⟩ := by
      simp [hash_put, hash_create, hash_get, hash_count, hfid]
    have step : ∀ e : daemon,
        hash_get e.ht (A.hdr_pid b1)
          = some ⟨A.hdr_pid b1, A.init_ver b1, sys1.gettimeofday,
                  hash_create store_fid d0.max_fid_num⟩ →
        hash_get (proc_msg_state A sys3 (proc_msg_state A sys2 e b2 n2).2 b3 n3).2.ht
            (A.hdr_pid b1)
          = some ⟨A.hdr_pid b1, A.init_ver b1, sys1.gettimeofday,
                  hash_create store_fid d0.max_fid_num⟩ := by
      intro e he
      rw [proc_msg_state_put A sys2 e b2 n2 _ _ hn2 (by rw [hp2]; exact he) hnot hc2 hput2]
      have hg2 : hash_get
          (hash_store e.ht (A.hdr_pid b2)
              ⟨A.hdr_pid b1, A.init_ver b1, sys1.gettimeofday,
               ⟨d0.max_fid_num, [(A.state_fid b2, record_of A b2)]⟩⟩)
          (A.hdr_pid b3)
          = some ⟨A.hdr_pid b1, A.init_ver b1, sys1.gettimeofday,
                  ⟨d0.max_fid_num, [(A.state_fid b2, record_of A b2)]⟩⟩ := by
        simp [hash_get_store, hp2, hp3, he]
      have e3 := proc_msg_state_closed A sys3
        ⟨e.max_fid_num, hash_store e.ht (A.hdr_pid b2)
              ⟨A.hdr_pid b1, A.init_ver b1, sys1.gettimeofday,
               ⟨d0.max_fid_num, [(A.state_fid b2, record_of A b2)]⟩⟩, e.sent⟩
        b3 n3 _ hn3 hg2 hs3 ht3
      simp only [hash_create] at e3 ⊢
      rw [e3]
      simp [hash_get_store, hp2, hp3, he, hf3, hash_del, hash_create]
    refine ⟨step _ ?_, rfl⟩
    rw [e1]
    exact hg1

/-- C4, witness: pid 100 tracks fid 5; a State message reporting fid 5 as a closed
stream socket is handled, and the scenario is run from the empty registry. -/
theorem c4_state_stream_closed_erases_witness :
    (proc_msg_state vma_agent sys_ok daemon_pid100_fid5
        (enc_state 1 100 ⟨5, 1, 0, 10, 20, 30, 40⟩) 26).1 = 26 ∧
    hash_get (proc_msg_state vma_agent sys_ok daemon_pid100_fid5
        (enc_state 1 100 ⟨5, 1, 0, 10, 20, 30, 40⟩) 26).2.ht 100
      = some ⟨100, 7, 0, ⟨4, []⟩⟩ ∧
    hash_get (proc_msg_state vma_agent sys_ok
        (proc_msg_state vma_agent sys_ok
          (proc_msg_init vma_agent sys_ok (daemon_start 4 4) (enc_init 1 100 7) 12 peer0).2.1
          (enc_state 1 100 ⟨5, 1, 4, 10, 20, 30, 40⟩) 26).2
        (enc_state 1 100 ⟨5, 1, 0, 10, 20, 30, 40⟩) 26).2.ht 100
      = some ⟨100, 7, 0, ⟨4, []⟩⟩ :=
  have h := c4_state_stream_closed_erases vma_agent sys_ok daemon_pid100_fid5
    (enc_state 1 100 ⟨5, 1, 0, 10, 20, 30, 40⟩) 26 ⟨100, 7, 0, ⟨4, [(5, ⟨5, 1, 4, 10, 20, 30, 40⟩)]⟩⟩
    sys_ok sys_ok sys_ok (daemon_start 4 4) (enc_init 1 100 7)
    (enc_state 1 100 ⟨5, 1, 4, 10, 20, 30, 40⟩) (enc_state 1 100 ⟨5, 1, 0, 10, 20, 30, 40⟩)
    12 26 26 peer0
    (by decide) (by decide) (by decide) (by decide) (by decide) (by decide) (by decide)
    (by decide) (by decide) (by decide) (by decide) (by decide) (by decide) (by decide)
    (by decide) (by decide) (by decide) (by decide) (by decide) (by decide)
  ⟨h.1, h.2.1, h.2.2.2.2.2.2.2.1⟩
/-! ## Exit, and State for an unregistered pid -/

/-- C5: pid `p` is registered with session `s` (any number of records in its
table).  A full-size Exit message for `p` makes `proc_msg_exit` return
`sizeof(struct vma_msg_exit)`; the registry afterwards is the old registry
with `p` deleted: `p` is absent (its session and with it every record of its
table are gone), every other pid keeps its session, nothing is sent.  A
full-size State message for `p` handled next returns `-ENOENT` and leaves the
state as it is. -/
theorem c5_exit_removes_session (A : agent_h) (d : daemon) (msg : List Nat) (size : Nat)
    (s : store_pid) (_hreg : hash_get d.ht (A.hdr_pid msg) = some s)
    (hsize : A.sizeof_exit ≤ size) :
    (proc_msg_exit A d msg size).1 = (A.sizeof_exit : Int) ∧
    (proc_msg_exit A d msg size).2.ht = hash_del d.ht (A.hdr_pid msg) ∧
    hash_get (proc_msg_exit A d msg size).2.ht (A.hdr_pid msg) = none ∧
    (∀ fid, socket_of (proc_msg_exit A d msg size).2 (A.hdr_pid msg) fid = none) ∧
    (∀ q, q ≠ A.hdr_pid msg →
      hash_get (proc_msg_exit A d msg size).2.ht q = hash_get d.ht q) ∧
    (proc_msg_exit A d msg size).2.sent = d.sent ∧
    (∀ (sys : sys_calls) (msg2 : List Nat) (size2 : Nat),
      A.hdr_pid msg2 = A.hdr_pid msg → A.sizeof_state ≤ size2 →
        proc_msg_state A sys (proc_msg_exit A d msg size).2 msg2 size2
          = (-ENOENT, (proc_msg_exit A d msg size).2)) := by
  have h : proc_msg_exit A d msg size
      = ((A.sizeof_exit : Int), { d with ht := hash_del d.ht (A.hdr_pid msg) }) := by
    unfold proc_msg_exit
    simp [Nat.not_lt.mpr hsize]
  rw [h]
  refine ⟨rfl, rfl, ?_, ?_, ?_, rfl, ?_⟩
  · simp [hash_get_del]
  · intro fid
    simp [socket_of, hash_get_del]
  · intro q hq
    simp [hash_get_del, hq]
  · intro sys msg2 size2 hp hs
    exact proc_msg_state_noent A sys _ msg2 size2 hs (by simp [hash_get_del, hp])

/-- C5, witness: Exit for pid 100, which tracks fid 5, followed by a State message
for pid 100. -/
theorem c5_exit_removes_session_witness :
    hash_get daemon_pid100_fid5.ht (vma_agent.hdr_pid (enc_exit 1 100))
      = some ⟨100, 7, 0, ⟨4, [(5, ⟨5, 1, 4, 10, 20, 30, 40⟩)]⟩⟩ ∧
    (proc_msg_exit vma_agent daemon_pid100_fid5 (enc_exit 1 100) 8).1 = 8 ∧
    proc_msg_state vma_agent sys_ok
        (proc_msg_exit vma_agent daemon_pid100_fid5 (enc_exit 1 100) 8).2
        (enc_state 1 100 ⟨5, 1, 4, 10, 20, 30, 40⟩) 26
      = (-ENOENT, (proc_msg_exit vma_agent daemon_pid100_fid5 (enc_exit 1 100) 8).2) :=
  have h := c5_exit_removes_session vma_agent daemon_pid100_fid5 (enc_exit 1 100) 8
    ⟨100, 7, 0, ⟨4, [(5, ⟨5, 1, 4, 10, 20, 30, 40⟩)]⟩⟩ (by decide) (by decide)
  ⟨by decide, h.1,
   h.2.2.2.2.2.2 sys_ok (enc_state 1 100 ⟨5, 1, 4, 10, 20, 30, 40⟩) 26 (by decide) (by decide)⟩

/-- C6: pid `p` is not registered.  A full-size State message for `p` makes
`proc_msg_state` return `-ENOENT`, a negative value, and the state after the
call is the state before it: same registry, same sessions and tables, nothing
handed to `sys_sendto`. -/
theorem c6_state_unregistered_pid (A : agent_h) (sys : sys_calls) (d : daemon)
    (msg : List Nat) (size : Nat)
    (hreg : hash_get d.ht (A.hdr_pid msg) = none) (hsize : A.sizeof_state ≤ size) :
    (proc_msg_state A sys d msg size).1 = -ENOENT ∧
    (proc_msg_state A sys d msg size).1 < 0 ∧
    (proc_msg_state A sys d msg size).2 = d ∧
    (proc_msg_state A sys d msg size).2.ht = d.ht ∧
    (proc_msg_state A sys d msg size).2.sent = d.sent := by
  rw [proc_msg_state_noent A sys d msg size hsize hreg]
  simp [ENOENT]

/-- C6, witness: a State message for pid 999 while only pids 100 and 200 are
registered. -/
theorem c6_state_unregistered_pid_witness :
    hash_get daemon_pid100_fid5.ht (vma_agent.hdr_pid (enc_state 1 999 ⟨1, 1, 4, 10, 20, 30, 40⟩))
      = none ∧
    (proc_msg_state vma_agent sys_ok daemon_pid100_fid5
        (enc_state 1 999 ⟨1, 1, 4, 10, 20, 30, 40⟩) 26).2 = daemon_pid100_fid5 :=
  ⟨by decide,
   (c6_state_unregistered_pid vma_agent sys_ok daemon_pid100_fid5
      (enc_state 1 999 ⟨1, 1, 4, 10, 20, 30, 40⟩) 26 (by decide) (by decide)).2.2.1⟩
/-! ## The layout `vma_agent` -/

theorem rd8_wr8 (b : List Nat) (i j v : Nat) :
    rd8 (wr8 b i v) j = if i = j ∧ i < b.length then v % 256 else rd8 b j := by
  unfold rd8 wr8
  by_cases h : i = j
  · subst h
    by_cases hl : i < b.length
    · simp [List.getD_eq_getElem?_getD, List.getElem?_set, hl]
    · have hl1 : b.length ≤ i := Nat.le_of_not_lt hl
      simp [List.getD_eq_getElem?_getD, List.getElem?_set, hl, List.getElem?_eq_none hl1]
  · simp [List.getD_eq_getElem?_getD, List.getElem?_set, h]

theorem rd8_take (b : List Nat) (n j : Nat) (h : j < n) : rd8 (b.take n) j = rd8 b j := by
  unfold rd8
  simp [List.getD_eq_getElem?_getD, List.getElem?_take, h]

theorem rd8_lt (b : List Nat) (j : Nat) : rd8 b j < 256 := Nat.mod_lt _ (by decide)

/-- The layout `vma_agent` has independent fields. -/
theorem vma_agent_overlay_ok : vma_agent.overlay_ok where
  hdr_le_init := by decide
  length_set_code := by intro b v; simp [vma_agent, wr8]
  length_set_ver := by intro b v; simp [vma_agent, wr8]
  code_set_code := by
    intro b hb
    have hb1 : 0 < b.length := Nat.lt_of_lt_of_le (by decide) hb
    have h1 : rd8 b 0 ||| 128 < 2 ^ 8 := Nat.or_lt_two_pow (rd8_lt b 0) (by decide)
    simp only [vma_agent, rd8_wr8, hb1, and_self, if_true]
    exact Nat.mod_eq_of_lt h1
  ver_set_ver := by
    intro b hb
    have hb1 : 1 < b.length := Nat.lt_of_lt_of_le (by decide) hb
    simp [vma_agent, rd8_wr8, hb1]
  code_set_ver := by intro b v; simp [vma_agent, rd8_wr8]
  ver_set_code := by intro b v; simp [vma_agent, rd8_wr8]
  pid_set_code := by intro b v; simp [vma_agent, rd32, rd16, rd8_wr8]
  pid_set_ver := by intro b v; simp [vma_agent, rd32, rd16, rd8_wr8]
  init_ver_set_code := by intro b v; simp [vma_agent, rd32, rd16, rd8_wr8]
  init_ver_set_ver := by intro b v; simp [vma_agent, rd32, rd16, rd8_wr8]
  code_take := by
    intro b n hn
    have h : 8 ≤ n := hn
    simp only [vma_agent]
    rw [rd8_take b n 0 (by omega)]
  ver_take := by
    intro b n hn
    have h : 8 ≤ n := hn
    simp only [vma_agent]
    rw [rd8_take b n 1 (by omega)]
  pid_take := by
    intro b n hn
    have h : 8 ≤ n := hn
    simp only [vma_agent, rd32, rd16]
    rw [rd8_take b n 4 (by omega), rd8_take b n (4 + 1) (by omega),
      rd8_take b n (4 + 2) (by omega), rd8_take b n (4 + 2 + 1) (by omega)]
  init_ver_take := by
    intro b n hn
    have h : 12 ≤ n := hn
    simp only [vma_agent, rd32, rd16]
    rw [rd8_take b n 8 (by omega), rd8_take b n (8 + 1) (by omega),
      rd8_take b n (8 + 2) (by omega), rd8_take b n (8 + 2 + 1) (by omega)]
/-! ## The acknowledgement -/

/-- C7: a full-size Init message with an accepted version whose registration
succeeds (allocations succeed, `hash_put` stores the session) makes
`proc_msg_init` hand exactly one datagram to `sys_sendto`, for the peer
address of the sender: the first `sizeof(struct vma_msg_init)` bytes of the
buffer after the assignments `hdr.code |= VMA_MSG_ACK` and
`hdr.ver = VMA_AGENT_VER`.  With independent fields, that reply has the code
of the message with `VMA_MSG_ACK` or-ed in, the version `VMA_AGENT_VER`, and
the pid and the library version of the message.  `proc_msg_state` and
`proc_msg_exit` hand nothing to `sys_sendto`, and neither does a call of
`proc_msg_init` that returns an error. -/
theorem c7_init_acknowledgement (A : agent_h) (sys : sys_calls) (d : daemon)
    (msg : List Nat) (size : Nat) (peeraddr : sockaddr_un) (ht1 : hash_object store_pid)
    (hsize : A.sizeof_init ≤ size) (hlen : size ≤ msg.length)
    (hver : A.hdr_ver msg ≤ A.VMA_AGENT_VER)
    (hcalloc : sys.calloc_ok = true) (hcreate : sys.hash_create_ok = true)
    (hput : hash_put d.ht (A.hdr_pid msg)
      ⟨A.hdr_pid msg, A.init_ver msg, sys.gettimeofday, hash_create store_fid d.max_fid_num⟩
        = some ht1)
    (hA : A.overlay_ok) :
    (proc_msg_init A sys d msg size peeraddr).1 = (A.sizeof_init : Int) ∧
    (proc_msg_init A sys d msg size peeraddr).2.1.sent
      = d.sent ++
          [⟨(A.set_hdr_ver (A.set_hdr_code msg (A.hdr_code msg ||| A.VMA_MSG_ACK))
              A.VMA_AGENT_VER).take A.sizeof_init, peeraddr⟩] ∧
    (∃ reply : List Nat,
      (proc_msg_init A sys d msg size peeraddr).2.1.sent = d.sent ++ [⟨reply, peeraddr⟩] ∧
      reply.length = A.sizeof_init ∧
      A.hdr_code reply = A.hdr_code msg ||| A.VMA_MSG_ACK ∧
      A.hdr_ver reply = A.VMA_AGENT_VER ∧
      A.hdr_pid reply = A.hdr_pid msg ∧
      A.init_ver reply = A.init_ver msg) ∧
    (∀ (sys1 : sys_calls) (d1 : daemon) (msg1 : List Nat) (size1 : Nat),
      (proc_msg_state A sys1 d1 msg1 size1).2.sent = d1.sent) ∧
    (∀ (d1 : daemon) (msg1 : List Nat) (size1 : Nat),
      (proc_msg_exit A d1 msg1 size1).2.sent = d1.sent) ∧
    (∀ (sys1 : sys_calls) (d1 : daemon) (msg1 : List Nat) (size1 : Nat) (peer1 : sockaddr_un),
      (proc_msg_init A sys1 d1 msg1 size1 peer1).1 < 0 →
        (proc_msg_init A sys1 d1 msg1 size1 peer1).2.1.sent = d1.sent) := by
  have hmsg : A.sizeof_init ≤ msg.length := Nat.le_trans hsize hlen
  have hhdr : A.sizeof_hdr ≤ msg.length := Nat.le_trans hA.hdr_le_init hmsg
  rw [proc_msg_init_ok A sys d msg size peeraddr ht1 hsize hver hcalloc hcreate hput]
  refine ⟨rfl, rfl, ⟨_, rfl, ?_, ?_, ?_, ?_, ?_⟩, ?_, ?_, ?_⟩
  · simp [hA.length_set_ver, hA.length_set_code, hmsg]
  · rw [hA.code_take _ _ hA.hdr_le_init, hA.code_set_ver, hA.code_set_code _ hhdr]
  · rw [hA.ver_take _ _ hA.hdr_le_init, hA.ver_set_ver]
    rw [hA.length_set_code]
    exact hhdr
  · rw [hA.pid_take _ _ hA.hdr_le_init, hA.pid_set_ver, hA.pid_set_code]
  · rw [hA.init_ver_take _ _ (Nat.le_refl _), hA.init_ver_set_ver, hA.init_ver_set_code]
  · intro sys1 d1 msg1 size1
    exact (proc_msg_state_sent A sys1 d1 msg1 size1).1
  · intro d1 msg1 size1
    unfold proc_msg_exit
    by_cases h : size1 < A.sizeof_exit
    · simp [h]
    · simp [h]
  · intro sys1 d1 msg1 size1 peer1 hneg
    rw [proc_msg_init_neg A sys1 d1 msg1 size1 peer1 hneg]

/-- C7, witness: the Init message of pid 100 with version 1 and library version 7
sent to the daemon at start; the reply is that message with code 0x81. -/
theorem c7_init_acknowledgement_witness :
    (proc_msg_init vma_agent sys_ok (daemon_start 4 4) (enc_init 1 100 7) 12 peer0).2.1.sent
      = [⟨[129, 1, 0, 0, 100, 0, 0, 0, 7, 0, 0, 0], peer0⟩] :=
  (c7_init_acknowledgement vma_agent sys_ok (daemon_start 4 4) (enc_init 1 100 7) 12 peer0
    ⟨4, [(100, ⟨100, 7, 0, ⟨4, []⟩⟩)]⟩
    (by decide) (by decide) (by decide) (by decide) (by decide) (by decide)
    vma_agent_overlay_ok).2.1
/-! ## The decode loop -/

/-- One iteration of the loop whose handler returns a positive value. -/
theorem proc_message_loop_step (A : agent_h) (peeraddr : sockaddr_un) (fuel : Nat)
    (env : Nat → sys_calls) (rc len : Int) (d : daemon) (msg : List Nat)
    (rc1 : Int) (d1 : daemon) (msg1 : List Nat)
    (hlen : 0 < len) (hhdr : ¬ len < (A.sizeof_hdr : Int))
    (hd : dispatch A (env 0) peeraddr len d msg = some (rc1, d1, msg1)) (hrc : 0 < rc1) :
    proc_message_loop A peeraddr (fuel + 1) env rc len d msg
      = proc_message_loop A peeraddr fuel (fun n => env (n + 1)) 0 (len - rc1) d1 msg1 := by
  rw [proc_message_loop]
  simp [hlen, hhdr, hd, hrc]

/-- A short message at the head of the loop. -/
theorem proc_message_loop_short (A : agent_h) (peeraddr : sockaddr_un) (fuel : Nat)
    (env : Nat → sys_calls) (rc len : Int) (d : daemon) (msg : List Nat)
    (hA : A.distinct_kinds) (hlen : 0 < len) (hshort : short_message A len msg) :
    proc_message_loop A peeraddr (fuel + 1) env rc len d msg = some (-EBADMSG, d, msg) := by
  rw [proc_message_loop]
  obtain ⟨h12, h13, h23⟩ := hA
  simp only [gt_iff_lt, hlen, if_true]
  by_cases hhdr : len < (A.sizeof_hdr : Int)
  · simp [hhdr]
  simp only [hhdr, if_false]
  have hneg : ¬ (0 : Int) < -EBADMSG := by simp [EBADMSG]
  rcases hshort with h | ⟨hc, hl⟩ | ⟨hc, hl⟩ | ⟨hc, hl⟩
  · exact absurd h hhdr
  · have hs : len.toNat < A.sizeof_init := by omega
    simp [dispatch, hc, proc_msg_init, hs, hneg]
  · have hs : len.toNat < A.sizeof_state := by omega
    have hc1 : ¬ A.VMA_MSG_STATE = A.VMA_MSG_INIT := fun h => h12 h.symm
    simp [dispatch, hc, hc1, proc_msg_state, hs, hneg]
  · have hs : len.toNat < A.sizeof_exit := by omega
    have hc1 : ¬ A.VMA_MSG_EXIT = A.VMA_MSG_INIT := fun h => h13 h.symm
    have hc2 : ¬ A.VMA_MSG_EXIT = A.VMA_MSG_STATE := fun h => h23 h.symm
    simp [dispatch, hc, hc1, hc2, proc_msg_exit, hs, hneg]

/-- The loop on a short message, read as the loop reads it: when after `k` handled
messages the remaining length is positive but smaller than the header, or
smaller than the message structure of the kind that the header at the start
of the buffer names, the loop ends with `-EBADMSG`, in the state the `k`
handled messages produced. -/
theorem proc_message_loop_short_after (A : agent_h) (peeraddr : sockaddr_un) (k fuel : Nat)
    (env : Nat → sys_calls) (rc len : Int) (d : daemon) (msg : List Nat)
    (len1 : Int) (d1 : daemon) (msg1 : List Nat)
    (hA : A.distinct_kinds)
    (hk : loop_after A peeraddr k env len d msg = some (len1, d1, msg1))
    (hlen : 0 < len1) (hshort : short_message A len1 msg1) :
    proc_message_loop A peeraddr (k + 1 + fuel) env rc len d msg = some (-EBADMSG, d1, msg1) ∧
    -EBADMSG < 0 := by
  refine ⟨?_, by simp [EBADMSG]⟩
  induction k generalizing env rc len d msg with
  | zero =>
    simp only [loop_after, Option.some.injEq, Prod.mk.injEq] at hk
    obtain ⟨h1, h2, h3⟩ := hk
    subst h1 h2 h3
    have e : 0 + 1 + fuel = fuel + 1 := by omega
    rw [e]
    exact proc_message_loop_short A peeraddr fuel env rc len d msg hA hlen hshort
  | succ k ih =>
    rw [loop_after] at hk
    by_cases hc : 0 < len ∧ ¬ len < (A.sizeof_hdr : Int)
    · simp only [hc, not_false_eq_true, and_self, if_true] at hk
      cases hd : dispatch A (env 0) peeraddr len d msg with
      | none => simp [hd] at hk
      | some r =>
        obtain ⟨rc2, d2, msg2⟩ := r
        simp only [hd] at hk
        by_cases hrc : 0 < rc2
        · simp only [hrc, if_true] at hk
          have e : k + 1 + 1 + fuel = (k + 1 + fuel) + 1 := by omega
          rw [e, proc_message_loop_step A peeraddr _ env rc len d msg rc2 d2 msg2 hc.1 hc.2 hd hrc]
          exact ih _ 0 _ _ _ hk
        · simp [hrc] at hk
    · exfalso
      apply hc
      simp only [hc, if_false] at hk
      cases hk

/-- An instance: pid 100 is registered; the buffer holds a State message for
fid 5 followed by 5 more bytes.  The State message is applied, then the loop
ends with `-EBADMSG`, and the record of fid 5 stays. -/
theorem proc_message_loop_short_after_instance :
    proc_message_loop vma_agent peer0 (1 + 1 + 29) (fun _ => sys_ok) 0 31 daemon_pid100
        (enc_state 1 100 ⟨5, 1, 4, 10, 20, 30, 40⟩ ++ [2, 1, 0, 0, 100])
      = some (-EBADMSG,
          ⟨4, ⟨4, [(100, ⟨100, 7, 0, ⟨4, [(5, ⟨5, 1, 4, 10, 20, 30, 40⟩)]⟩⟩)]⟩, []⟩,
          enc_state 1 100 ⟨5, 1, 4, 10, 20, 30, 40⟩ ++ [2, 1, 0, 0, 100]) :=
  (proc_message_loop_short_after vma_agent peer0 1 29 (fun _ => sys_ok) 0 31 daemon_pid100
    (enc_state 1 100 ⟨5, 1, 4, 10, 20, 30, 40⟩ ++ [2, 1, 0, 0, 100]) 5
    ⟨4, ⟨4, [(100, ⟨100, 7, 0, ⟨4, [(5, ⟨5, 1, 4, 10, 20, 30, 40⟩)]⟩⟩)]⟩, []⟩
    (enc_state 1 100 ⟨5, 1, 4, 10, 20, 30, 40⟩ ++ [2, 1, 0, 0, 100])
    ⟨by decide, by decide, by decide⟩ (by decide) (by decide) (Or.inl (by decide))).1

/-- C8, the code at the failing input: pid 100 is registered; the buffer holds an
Exit message (8 bytes) followed by the header of a State message and nothing
more (8 bytes, while a State message has 26).  `proc_message` returns 0 and
not `-EBADMSG`: the second iteration reads the header at the start of the
buffer again, takes the remainder for an Exit message, and handles the Exit
a second time.  The truncated State header delivered on its own is rejected
with `-EBADMSG`. -/
theorem c8_truncated_second_record_accepted :
    proc_message vma_agent (fun _ => sys_ok)
        [received (enc_exit 1 100 ++ enc_hdr 2 1 100) peer0] daemon_pid100
      = some (0, ⟨4, ⟨4, []⟩, []⟩) ∧
    loop_after vma_agent peer0 1 (fun _ => sys_ok) 16 daemon_pid100
        (enc_exit 1 100 ++ enc_hdr 2 1 100)
      = some (8, ⟨4, ⟨4, []⟩, []⟩, enc_exit 1 100 ++ enc_hdr 2 1 100) ∧
    vma_agent.hdr_code ((enc_exit 1 100 ++ enc_hdr 2 1 100).drop 8) = vma_agent.VMA_MSG_STATE ∧
    (8 : Int) < vma_agent.sizeof_state ∧
    proc_message vma_agent (fun _ => sys_ok) [received (enc_hdr 2 1 100) peer0] daemon_pid100
      = some (-EBADMSG, daemon_pid100) := by
  refine ⟨by decide, by decide, by decide, by decide, by decide⟩

/-- The `default` case of the `switch`. -/
theorem dispatch_unknown (A : agent_h) (sys : sys_calls) (peeraddr : sockaddr_un) (len : Int)
    (d : daemon) (msg : List Nat)
    (h1 : A.hdr_code msg ≠ A.VMA_MSG_INIT) (h2 : A.hdr_code msg ≠ A.VMA_MSG_STATE)
    (h3 : A.hdr_code msg ≠ A.VMA_MSG_EXIT) :
    dispatch A sys peeraddr len d msg = none := by
  simp [dispatch, h1, h2, h3]

/-- The loop at a header with an unknown code. -/
theorem proc_message_loop_unknown (A : agent_h) (peeraddr : sockaddr_un) (fuel : Nat)
    (env : Nat → sys_calls) (rc len : Int) (d : daemon) (msg : List Nat)
    (hlen : 0 < len) (hhdr : (A.sizeof_hdr : Int) ≤ len)
    (h1 : A.hdr_code msg ≠ A.VMA_MSG_INIT) (h2 : A.hdr_code msg ≠ A.VMA_MSG_STATE)
    (h3 : A.hdr_code msg ≠ A.VMA_MSG_EXIT) :
    proc_message_loop A peeraddr (fuel + 1) env rc len d msg = some (-EPROTO, d, msg) := by
  rw [proc_message_loop]
  simp [hlen, Int.not_lt.mpr hhdr, dispatch_unknown A (env 0) peeraddr len d msg h1 h2 h3]

/-- A code with the bit `VMA_MSG_ACK` is none of the three kind tags. -/
theorem ack_code_unknown (A : agent_h) (hA : A.ack_reserved) (c : Nat)
    (hc : c &&& A.VMA_MSG_ACK ≠ 0) :
    c ≠ A.VMA_MSG_INIT ∧ c ≠ A.VMA_MSG_STATE ∧ c ≠ A.VMA_MSG_EXIT := by
  obtain ⟨a1, a2, a3⟩ := hA
  refine ⟨?_, ?_, ?_⟩ <;> intro h <;> subst h <;> contradiction

/-- C9: a received buffer of at least header size (and not empty) whose header
code is none of `VMA_MSG_INIT`, `VMA_MSG_STATE`, `VMA_MSG_EXIT` makes
`proc_message` return `-EPROTO`, a negative value, with the state unchanged
(registry as before, nothing handed to `sys_sendto`), whatever the system
calls would have returned; the `switch` takes its `default` case, so no
handler is called.  When `VMA_MSG_ACK` is a bit of none of the three tags,
this holds for every code with the bit `VMA_MSG_ACK` set, such as
`VMA_MSG_INIT | VMA_MSG_ACK`. -/
theorem c9_unknown_code_rejected (A : agent_h) (env : Nat → sys_calls) (d : daemon)
    (buf : List Nat) (peeraddr : sockaddr_un)
    (hlen : A.sizeof_hdr ≤ buf.length) (hpos : 0 < buf.length)
    (h1 : A.hdr_code buf ≠ A.VMA_MSG_INIT) (h2 : A.hdr_code buf ≠ A.VMA_MSG_STATE)
    (h3 : A.hdr_code buf ≠ A.VMA_MSG_EXIT) :
    proc_message A env [received buf peeraddr] d = some (-EPROTO, d) ∧
    -EPROTO < 0 ∧
    (∀ (sys : sys_calls) (len : Int) (d1 : daemon),
      dispatch A sys peeraddr len d1 buf = none) ∧
    (A.ack_reserved →
      ∀ (b : List Nat) (env1 : Nat → sys_calls) (d1 : daemon) (peer1 : sockaddr_un),
        A.hdr_code b &&& A.VMA_MSG_ACK ≠ 0 →
          (∀ (sys : sys_calls) (len : Int), dispatch A sys peer1 len d1 b = none) ∧
          (A.sizeof_hdr ≤ b.length → 0 < b.length →
            proc_message A env1 [received b peer1] d1 = some (-EPROTO, d1))) := by
  have main : ∀ (b : List Nat) (env1 : Nat → sys_calls) (d1 : daemon) (peer1 : sockaddr_un),
      A.sizeof_hdr ≤ b.length → 0 < b.length →
      A.hdr_code b ≠ A.VMA_MSG_INIT → A.hdr_code b ≠ A.VMA_MSG_STATE →
      A.hdr_code b ≠ A.VMA_MSG_EXIT →
      proc_message A env1 [received b peer1] d1 = some (-EPROTO, d1) := by
    intro b env1 d1 peer1 hl hp c1 c2 c3
    have hl1 : ¬ ((b.length : Int) < 0 ∨ (b.length : Int) < (A.sizeof_hdr : Int)) := by omega
    obtain ⟨n, hn⟩ : ∃ n, b.length = n + 1 := ⟨b.length - 1, by omega⟩
    simp only [proc_message, received, hl1, if_false, Int.toNat_ofNat]
    rw [hn, proc_message_loop_unknown A peer1 n env1 0 _ d1 b (by omega) (by omega) c1 c2 c3]
    rfl
  refine ⟨main buf env d peeraddr hlen hpos h1 h2 h3, by simp [EPROTO], ?_, ?_⟩
  · intro sys len d1
    exact dispatch_unknown A sys peeraddr len d1 buf h1 h2 h3
  · intro hA b env1 d1 peer1 hack
    obtain ⟨c1, c2, c3⟩ := ack_code_unknown A hA _ hack
    exact ⟨fun sys len => dispatch_unknown A sys peer1 len d1 b c1 c2 c3,
      fun hl hp => main b env1 d1 peer1 hl hp c1 c2 c3⟩

/-- C9, witness: a header with code 0x81 (`VMA_MSG_INIT | VMA_MSG_ACK`) for the
registered pid 100, and another one with code 7. -/
theorem c9_unknown_code_rejected_witness :
    proc_message vma_agent (fun _ => sys_ok) [received (enc_hdr 7 1 100) peer0] daemon_pid100
      = some (-EPROTO, daemon_pid100) ∧
    proc_message vma_agent (fun _ => sys_ok)
        [received ([129, 1, 0, 0, 100, 0, 0, 0, 7, 0, 0, 0]) peer0] daemon_pid100
      = some (-EPROTO, daemon_pid100) :=
  have h := c9_unknown_code_rejected vma_agent (fun _ => sys_ok) daemon_pid100
    (enc_hdr 7 1 100) peer0 (by decide) (by decide) (by decide) (by decide) (by decide)
  ⟨h.1,
   (h.2.2.2 ⟨by decide, by decide, by decide⟩ [129, 1, 0, 0, 100, 0, 0, 0, 7, 0, 0, 0]
      (fun _ => sys_ok) daemon_pid100 peer0 (by decide)).2 (by decide) (by decide)⟩
/-! ## One message per buffer, and the reference model -/

/-- The loop is left when nothing remains. -/
theorem proc_message_loop_done (A : agent_h) (peeraddr : sockaddr_un) (fuel : Nat)
    (env : Nat → sys_calls) (rc len : Int) (d : daemon) (msg : List Nat) (h : len ≤ 0) :
    proc_message_loop A peeraddr fuel env rc len d msg = some (rc, d, msg) := by
  rw [proc_message_loop.eq_def]
  simp [Int.not_lt.mpr h]

/-- One iteration of the loop whose handler returns an error. -/
theorem proc_message_loop_fail (A : agent_h) (peeraddr : sockaddr_un) (fuel : Nat)
    (env : Nat → sys_calls) (rc len : Int) (d : daemon) (msg : List Nat)
    (rc1 : Int) (d1 : daemon) (msg1 : List Nat)
    (hlen : 0 < len) (hhdr : ¬ len < (A.sizeof_hdr : Int))
    (hd : dispatch A (env 0) peeraddr len d msg = some (rc1, d1, msg1)) (hrc : ¬ 0 < rc1) :
    proc_message_loop A peeraddr (fuel + 1) env rc len d msg = some (rc1, d1, msg1) := by
  rw [proc_message_loop]
  simp [hlen, hhdr, hd, hrc]

/-- Deleting a key that is absent leaves the map as it is. -/
theorem hash_del_absent {V : Type} (ht : hash_object V) (k : Nat)
    (h : hash_get ht k = none) : hash_del ht k = ht := by
  obtain ⟨sz, l⟩ := ht
  simp only [hash_get, hash_del] at h ⊢
  congr 1
  induction l with
  | nil => rfl
  | cons e l ih =>
    by_cases he : e.1 = k
    · simp [List.find?_cons, he] at h
    · have hb : (e.1 == k) = false := by simp [he]
      simp only [List.find?_cons, hb] at h
      have hf : (e.1 != k) = true := by simp [he]
      simp only [List.filter_cons, hf, if_true]
      rw [ih h]

/-- C11: pid `p` is registered with session `s`.  A full-size State message for
`p` whose type is not `SOCK_STREAM`, with any state (`CLOSED` too), is never
taken as a removal.  When the allocation and the table put succeed,
`proc_msg_state` returns `sizeof(struct vma_msg_state)` and the fid is tracked
with a record that holds the reported fid, type, state, addresses and ports,
while every other fid keeps its record.  Whatever the allocation and the put
do (also when the table is full and the put fails), every fid that was
tracked for `p` is tracked afterwards. -/
theorem c11_state_non_stream_never_removes (A : agent_h) (sys : sys_calls) (d : daemon)
    (msg : List Nat) (size : Nat) (s : store_pid)
    (hreg : hash_get d.ht (A.hdr_pid msg) = some s)
    (hsize : A.sizeof_state ≤ size)
    (htype : A.state_type msg ≠ A.SOCK_STREAM) :
    (∀ ht1 : hash_object store_fid,
      sys.calloc_ok = true →
      hash_put s.ht (A.state_fid msg) (record_of A msg) = some ht1 →
        (proc_msg_state A sys d msg size).1 = (A.sizeof_state : Int) ∧
        socket_of (proc_msg_state A sys d msg size).2 (A.hdr_pid msg) (A.state_fid msg)
          = some ⟨A.state_fid msg, A.state_type msg, A.state_state msg, A.state_src_ip msg,
                  A.state_dst_ip msg, A.state_src_port msg, A.state_dst_port msg⟩ ∧
        (∀ k, k ≠ A.state_fid msg →
          socket_of (proc_msg_state A sys d msg size).2 (A.hdr_pid msg) k
            = socket_of d (A.hdr_pid msg) k)) ∧
    (∀ (sys1 : sys_calls) (k : Nat),
      (socket_of d (A.hdr_pid msg) k).isSome = true →
        (socket_of (proc_msg_state A sys1 d msg size).2 (A.hdr_pid msg) k).isSome = true) := by
  have hnot : ¬ (A.CLOSED = A.state_state msg ∧ A.SOCK_STREAM = A.state_type msg) :=
    fun h => htype h.2.symm
  refine ⟨?_, ?_⟩
  · intro ht1 hcalloc hput
    rw [proc_msg_state_put A sys d msg size s ht1 hsize hreg hnot hcalloc hput]
    refine ⟨rfl, ?_, ?_⟩
    · simp [socket_of, hash_get_store, hreg, hash_get_put _ _ _ _ _ hput, record_of]
    · intro k hk
      simp [socket_of, hash_get_store, hreg, hash_get_put _ _ _ _ _ hput, hk]
  · intro sys1 k hk
    cases h4 : sys1.calloc_ok
    · have e : proc_msg_state A sys1 d msg size = (-ENOMEM, d) := by
        unfold proc_msg_state
        simp [Nat.not_lt.mpr hsize, hreg, hnot, h4]
      rw [e]
      exact hk
    cases hp : hash_put s.ht (A.state_fid msg) (record_of A msg) with
    | none =>
      have e : proc_msg_state A sys1 d msg size = (-EFAULT, d) := by
        unfold record_of at hp
        unfold proc_msg_state
        simp [Nat.not_lt.mpr hsize, hreg, hnot, h4, hp]
      rw [e]
      exact hk
    | some ht2 =>
      rw [proc_msg_state_put A sys1 d msg size s ht2 hsize hreg hnot h4 hp]
      simp only [socket_of, hreg, Option.some_bind] at hk
      simp only [socket_of, hash_get_store, hreg, if_true, Option.map_some', Option.some_bind,
        hash_get_put _ _ _ _ _ hp]
      by_cases hkf : k = A.state_fid msg
      · simp [hkf]
      · simp [hkf, hk]

/-- C11, witness: pid 200 tracks the datagram socket fid 9; a State message reports
fid 9 as a datagram socket in state `CLOSED`, and the record is overwritten.
And pid 100 tracks fid 5 in a table with room for one socket; a State message
for the datagram socket fid 6 finds the table full, and fid 5 stays
tracked. -/
theorem c11_state_non_stream_never_removes_witness :
    socket_of (proc_msg_state vma_agent sys_ok daemon_pid100_fid5
        (enc_state 1 200 ⟨9, 2, 0, 5, 6, 7, 8⟩) 26).2 200 9
      = some ⟨9, 2, 0, 5, 6, 7, 8⟩ ∧
    hash_put (⟨1, [(5, ⟨5, 1, 4, 10, 20, 30, 40⟩)]⟩ : hash_object store_fid) 6
        (record_of vma_agent (enc_state 1 100 ⟨6, 2, 0, 5, 6, 7, 8⟩)) = none ∧
    (socket_of (proc_msg_state vma_agent sys_ok daemon_full
        (enc_state 1 100 ⟨6, 2, 0, 5, 6, 7, 8⟩) 26).2 100 5).isSome = true :=
  ⟨((c11_state_non_stream_never_removes vma_agent sys_ok daemon_pid100_fid5
      (enc_state 1 200 ⟨9, 2, 0, 5, 6, 7, 8⟩) 26
      ⟨200, 7, 0, ⟨4, [(9, ⟨9, 2, 0, 1, 2, 3, 4⟩)]⟩⟩
      (by decide) (by decide) (by decide)).1
      ⟨4, [(9, ⟨9, 2, 0, 5, 6, 7, 8⟩)]⟩ (by decide) (by decide)).2.1,
   by decide,
   (c11_state_non_stream_never_removes vma_agent sys_ok daemon_full
      (enc_state 1 100 ⟨6, 2, 0, 5, 6, 7, 8⟩) 26
      ⟨100, 7, 0, ⟨1, [(5, ⟨5, 1, 4, 10, 20, 30, 40⟩)]⟩⟩
      (by decide) (by decide) (by decide)).2 sys_ok 5 (by decide)⟩

/-! ## Exit for an unregistered pid, resource errors, the failed reply -/

/-- C12: pid `p` is not registered.  A full-size Exit message for `p` makes
`proc_msg_exit` return `sizeof(struct vma_msg_exit)`, not an error, and the
state after the call is the state before it: the registry is unchanged and
nothing is handed to `sys_sendto`. -/
theorem c12_exit_unregistered_pid (A : agent_h) (d : daemon) (msg : List Nat) (size : Nat)
    (hreg : hash_get d.ht (A.hdr_pid msg) = none) (hsize : A.sizeof_exit ≤ size) :
    (proc_msg_exit A d msg size).1 = (A.sizeof_exit : Int) ∧
    0 ≤ (proc_msg_exit A d msg size).1 ∧
    (proc_msg_exit A d msg size).2 = d ∧
    (proc_msg_exit A d msg size).2.ht = d.ht ∧
    (proc_msg_exit A d msg size).2.sent = d.sent := by
  have h : proc_msg_exit A d msg size = ((A.sizeof_exit : Int), d) := by
    unfold proc_msg_exit
    simp [Nat.not_lt.mpr hsize, hash_del_absent d.ht _ hreg]
  rw [h]
  exact ⟨rfl, Int.ofNat_nonneg _, rfl, rfl, rfl⟩

/-- C12, witness: an Exit message for pid 999 while only pids 100 and 200 are
registered. -/
theorem c12_exit_unregistered_pid_witness :
    (proc_msg_exit vma_agent daemon_pid100_fid5 (enc_exit 1 999) 8).1 = 8 ∧
    (proc_msg_exit vma_agent daemon_pid100_fid5 (enc_exit 1 999) 8).2 = daemon_pid100_fid5 :=
  have h := c12_exit_unregistered_pid vma_agent daemon_pid100_fid5 (enc_exit 1 999) 8
    (by decide) (by decide)
  ⟨h.1, h.2.2.1⟩

/-- C13: when `hash_put` fails on the registry (it returns no stored value and the
map is as before), `proc_msg_init` returns a negative value, the state after
the call is the state before it (registry unchanged, nothing handed to
`sys_sendto`) and the buffer is untouched.  When pid `p` is registered with
session `s`, the message is not a closed stream socket, and `hash_put` fails
on the table of `s`, `proc_msg_state` returns a negative value and the state
after the call is the state before it: same registry, same table of `s`.
The same holds when `calloc` or `hash_create` fails. -/
theorem c13_resource_errors_no_mutation (A : agent_h) (sys : sys_calls) (d : daemon)
    (msg : List Nat) (size : Nat) (peeraddr : sockaddr_un)
    (sys2 : sys_calls) (d2 : daemon) (msg2 : List Nat) (size2 : Nat) (s : store_pid)
    (hput : hash_put d.ht (A.hdr_pid msg)
      ⟨A.hdr_pid msg, A.init_ver msg, sys.gettimeofday, hash_create store_fid d.max_fid_num⟩
        = none)
    (hreg : hash_get d2.ht (A.hdr_pid msg2) = some s)
    (hopen : ¬ (A.CLOSED = A.state_state msg2 ∧ A.SOCK_STREAM = A.state_type msg2))
    (hput2 : hash_put s.ht (A.state_fid msg2) (record_of A msg2) = none) :
    ((proc_msg_init A sys d msg size peeraddr).1 < 0 ∧
      (proc_msg_init A sys d msg size peeraddr).2 = (d, msg) ∧
      (proc_msg_init A sys d msg size peeraddr).2.1.ht = d.ht ∧
      (proc_msg_init A sys d msg size peeraddr).2.1.sent = d.sent) ∧
    ((proc_msg_state A sys2 d2 msg2 size2).1 < 0 ∧
      (proc_msg_state A sys2 d2 msg2 size2).2 = d2 ∧
      hash_get (proc_msg_state A sys2 d2 msg2 size2).2.ht (A.hdr_pid msg2) = some s) ∧
    (∀ (sys3 : sys_calls) (d3 : daemon) (msg3 : List Nat) (size3 : Nat) (peer3 : sockaddr_un),
      sys3.calloc_ok = false ∨ sys3.hash_create_ok = false →
        (proc_msg_init A sys3 d3 msg3 size3 peer3).1 < 0 ∧
        (proc_msg_init A sys3 d3 msg3 size3 peer3).2 = (d3, msg3)) := by
  refine ⟨?_, ?_, ?_⟩
  · have hneg : (proc_msg_init A sys d msg size peeraddr).1 < 0 := by
      by_contra hc
      obtain ⟨_, _, _, _, ht1, h⟩ :=
        proc_msg_init_nonneg A sys d msg size peeraddr (Int.not_lt.mp hc)
      rw [hput] at h
      cases h
    have e := proc_msg_init_neg A sys d msg size peeraddr hneg
    refine ⟨hneg, e, ?_, ?_⟩ <;> rw [e]
  · have e : proc_msg_state A sys2 d2 msg2 size2 = (-EBADMSG, d2) ∨
        proc_msg_state A sys2 d2 msg2 size2 = (-ENOMEM, d2) ∨
        proc_msg_state A sys2 d2 msg2 size2 = (-EFAULT, d2) := by
      unfold record_of at hput2
      unfold proc_msg_state
      by_cases h1 : size2 < A.sizeof_state
      · simp [h1]
      cases h4 : sys2.calloc_ok
      · simp [h1, hreg, hopen, h4]
      · simp [h1, hreg, hopen, h4, hput2]
    rcases e with e | e | e <;> rw [e] <;> simp [EBADMSG, ENOMEM, EFAULT, hreg]
  · intro sys3 d3 msg3 size3 peer3 hfail
    have hneg : (proc_msg_init A sys3 d3 msg3 size3 peer3).1 < 0 := by
      by_contra hc
      obtain ⟨_, _, h3, h4, _⟩ :=
        proc_msg_init_nonneg A sys3 d3 msg3 size3 peer3 (Int.not_lt.mp hc)
      rcases hfail with h | h
      · rw [h3] at h
        cases h
      · rw [h4] at h
        cases h
    exact ⟨hneg, proc_msg_init_neg A sys3 d3 msg3 size3 peer3 hneg⟩

/-- C13, witness: an Init for pid 300 when the registry has no room, and a State
for a second socket of pid 100 when its table has room for one socket. -/
theorem c13_resource_errors_no_mutation_witness :
    (proc_msg_init vma_agent sys_ok daemon_full (enc_init 1 300 7) 12 peer0).2
      = (daemon_full, enc_init 1 300 7) ∧
    (proc_msg_state vma_agent sys_ok daemon_full
        (enc_state 1 100 ⟨6, 1, 4, 11, 21, 31, 41⟩) 26).2 = daemon_full :=
  have h := c13_resource_errors_no_mutation vma_agent sys_ok daemon_full (enc_init 1 300 7) 12
    peer0 sys_ok daemon_full (enc_state 1 100 ⟨6, 1, 4, 11, 21, 31, 41⟩) 26
    ⟨100, 7, 0, ⟨1, [(5, ⟨5, 1, 4, 10, 20, 30, 40⟩)]⟩⟩
    (by decide) (by decide) (by decide) (by decide)
  ⟨h.1.2.1, h.2.1.2.1⟩

/-- C14: a valid Init message whose registration succeeds (allocations succeed,
`hash_put` stores the session): whatever `sys_sendto` returns, a failure
included, `proc_msg_init` returns `sizeof(struct vma_msg_init)` and the
registry holds the session of the pid; result, state and buffer are the same
for any two values `sys_sendto` may return. -/
theorem c14_send_failure_keeps_registration (A : agent_h) (sys : sys_calls) (d : daemon)
    (msg : List Nat) (size : Nat) (peeraddr : sockaddr_un) (ht1 : hash_object store_pid)
    (hsize : A.sizeof_init ≤ size) (hver : A.hdr_ver msg ≤ A.VMA_AGENT_VER)
    (hcalloc : sys.calloc_ok = true) (hcreate : sys.hash_create_ok = true)
    (hput : hash_put d.ht (A.hdr_pid msg)
      ⟨A.hdr_pid msg, A.init_ver msg, sys.gettimeofday, hash_create store_fid d.max_fid_num⟩
        = some ht1) :
    (∀ rc : Int,
      (proc_msg_init A { sys with sendto_rc := rc } d msg size peeraddr).1
        = (A.sizeof_init : Int) ∧
      (proc_msg_init A { sys with sendto_rc := rc } d msg size peeraddr).2.1.ht = ht1 ∧
      hash_get (proc_msg_init A { sys with sendto_rc := rc } d msg size peeraddr).2.1.ht
          (A.hdr_pid msg)
        = some ⟨A.hdr_pid msg, A.init_ver msg, sys.gettimeofday,
                hash_create store_fid d.max_fid_num⟩) ∧
    (∀ rc1 rc2 : Int,
      proc_msg_init A { sys with sendto_rc := rc1 } d msg size peeraddr
        = proc_msg_init A { sys with sendto_rc := rc2 } d msg size peeraddr) := by
  refine ⟨fun rc => ?_, fun rc1 rc2 => rfl⟩
  rw [proc_msg_init_ok A { sys with sendto_rc := rc } d msg size peeraddr ht1 hsize hver
    hcalloc hcreate hput]
  refine ⟨rfl, rfl, ?_⟩
  simp [hash_get_put _ _ _ _ _ hput]

/-- C14, witness: the Init message of pid 100 at the daemon at start, with
`sys_sendto` returning -1 and returning 12. -/
theorem c14_send_failure_keeps_registration_witness :
    proc_msg_init vma_agent { sys_ok with sendto_rc := -1 } (daemon_start 4 4)
        (enc_init 1 100 7) 12 peer0
      = proc_msg_init vma_agent { sys_ok with sendto_rc := 12 } (daemon_start 4 4)
        (enc_init 1 100 7) 12 peer0 ∧
    (proc_msg_init vma_agent { sys_ok with sendto_rc := -1 } (daemon_start 4 4)
        (enc_init 1 100 7) 12 peer0).1 = 12 :=
  have h := c14_send_failure_keeps_registration vma_agent sys_ok (daemon_start 4 4)
    (enc_init 1 100 7) 12 peer0 ⟨4, [(100, ⟨100, 7, 0, ⟨4, []⟩⟩)]⟩
    (by decide) (by decide) (by decide) (by decide) (by decide)
  ⟨h.2 (-1) 12, (h.1 (-1)).1⟩
/-! ## State and Exit do not read the header version -/

/-- The layout `vma_agent`: the version byte is no part of another field. -/
theorem vma_agent_ver_frame : vma_agent.ver_frame where
  pid := by intro b v; simp [vma_agent, rd32, rd16, rd8_wr8]
  fid := by intro b v; simp [vma_agent, rd32, rd16, rd8_wr8]
  type := by intro b v; simp [vma_agent, rd8_wr8]
  state := by intro b v; simp [vma_agent, rd8_wr8]
  src_ip := by intro b v; simp [vma_agent, rd32, rd16, rd8_wr8]
  dst_ip := by intro b v; simp [vma_agent, rd32, rd16, rd8_wr8]
  src_port := by intro b v; simp [vma_agent, rd16, rd8_wr8]
  dst_port := by intro b v; simp [vma_agent, rd16, rd8_wr8]

/-- The handler `proc_msg_state` reads the pid and the seven payload fields of the
message and nothing else of the buffer. -/
theorem proc_msg_state_reads (A : agent_h) (sys : sys_calls) (d : daemon) (m1 m2 : List Nat)
    (size : Nat) (hpid : A.hdr_pid m1 = A.hdr_pid m2)
    (hfid : A.state_fid m1 = A.state_fid m2) (htype : A.state_type m1 = A.state_type m2)
    (hstate : A.state_state m1 = A.state_state m2)
    (h1 : A.state_src_ip m1 = A.state_src_ip m2) (h2 : A.state_dst_ip m1 = A.state_dst_ip m2)
    (h3 : A.state_src_port m1 = A.state_src_port m2)
    (h4 : A.state_dst_port m1 = A.state_dst_port m2) :
    proc_msg_state A sys d m1 size = proc_msg_state A sys d m2 size := by
  unfold proc_msg_state
  rw [hpid, hfid, htype, hstate, h1, h2, h3, h4]

/-- C15: `proc_msg_state` and `proc_msg_exit` do not read the header version.  For
every state, every message and every value `v`, the result and the state
after `proc_msg_state` and after `proc_msg_exit` are the same for the message
and for the message with its header version set to `v` (also for `v` greater
than `VMA_AGENT_VER`); more generally two buffers with the same pid (and, for
State, the same payload fields) give the same result.  The result of
`proc_msg_init` does depend on it: of two full-size Init messages, one with a
header version of at most `VMA_AGENT_VER` and one with a greater header
version, the second gives `-EBADMSG` and the first never does. -/
theorem c15_state_exit_ignore_version (A : agent_h) (hA : A.ver_frame) :
    (∀ (sys : sys_calls) (d : daemon) (msg : List Nat) (size v : Nat),
      proc_msg_state A sys d (A.set_hdr_ver msg v) size = proc_msg_state A sys d msg size) ∧
    (∀ (d : daemon) (msg : List Nat) (size v : Nat),
      proc_msg_exit A d (A.set_hdr_ver msg v) size = proc_msg_exit A d msg size) ∧
    (∀ (sys : sys_calls) (d : daemon) (m1 m2 : List Nat) (size : Nat),
      A.hdr_pid m1 = A.hdr_pid m2 → A.state_fid m1 = A.state_fid m2 →
      A.state_type m1 = A.state_type m2 → A.state_state m1 = A.state_state m2 →
      A.state_src_ip m1 = A.state_src_ip m2 → A.state_dst_ip m1 = A.state_dst_ip m2 →
      A.state_src_port m1 = A.state_src_port m2 → A.state_dst_port m1 = A.state_dst_port m2 →
        proc_msg_state A sys d m1 size = proc_msg_state A sys d m2 size) ∧
    (∀ (d : daemon) (m1 m2 : List Nat) (size : Nat),
      A.hdr_pid m1 = A.hdr_pid m2 → proc_msg_exit A d m1 size = proc_msg_exit A d m2 size) ∧
    (∀ (sys : sys_calls) (d : daemon) (m1 m2 : List Nat) (size : Nat) (peeraddr : sockaddr_un),
      A.sizeof_init ≤ size → A.hdr_ver m1 ≤ A.VMA_AGENT_VER → A.VMA_AGENT_VER < A.hdr_ver m2 →
        (proc_msg_init A sys d m2 size peeraddr).1 = -EBADMSG ∧
        (proc_msg_init A sys d m1 size peeraddr).1 ≠ -EBADMSG) := by
  refine ⟨?_, ?_, ?_, ?_, ?_⟩
  · intro sys d msg size v
    exact proc_msg_state_reads A sys d _ _ size (hA.pid msg v) (hA.fid msg v) (hA.type msg v)
      (hA.state msg v) (hA.src_ip msg v) (hA.dst_ip msg v) (hA.src_port msg v)
      (hA.dst_port msg v)
  · intro d msg size v
    unfold proc_msg_exit
    rw [hA.pid]
  · intro sys d m1 m2 size
    exact proc_msg_state_reads A sys d m1 m2 size
  · intro d m1 m2 size hp
    unfold proc_msg_exit
    rw [hp]
  · intro sys d m1 m2 size peeraddr hs hv1 hv2
    constructor
    · unfold proc_msg_init
      simp [Nat.not_lt.mpr hs, hv2]
    · unfold proc_msg_init
      cases h3 : sys.calloc_ok
      · simp [Nat.not_lt.mpr hs, Nat.not_lt.mpr hv1, h3, ENOMEM, EBADMSG]
      cases h4 : sys.hash_create_ok
      · simp [Nat.not_lt.mpr hs, Nat.not_lt.mpr hv1, h3, h4, EFAULT, EBADMSG]
      cases hput : hash_put d.ht (A.hdr_pid m1)
          ⟨A.hdr_pid m1, A.init_ver m1, sys.gettimeofday,
           hash_create store_fid d.max_fid_num⟩ with
      | none => simp [Nat.not_lt.mpr hs, Nat.not_lt.mpr hv1, h3, h4, hput, EFAULT, EBADMSG]
      | some ht1 =>
        simp only [Nat.not_lt.mpr hs, Nat.not_lt.mpr hv1, h3, h4, hput, EBADMSG]
        simp

/-- C15, witness: State and Exit messages of pid 100 with header version 9, above
`VMA_AGENT_VER`, are handled like the ones with version 1. -/
theorem c15_state_exit_ignore_version_witness :
    proc_msg_state vma_agent sys_ok daemon_pid100
        (enc_state 9 100 ⟨5, 1, 4, 10, 20, 30, 40⟩) 26
      = proc_msg_state vma_agent sys_ok daemon_pid100
        (enc_state 1 100 ⟨5, 1, 4, 10, 20, 30, 40⟩) 26 ∧
    proc_msg_exit vma_agent daemon_pid100 (enc_exit 9 100) 8
      = proc_msg_exit vma_agent daemon_pid100 (enc_exit 1 100) 8 :=
  have h := c15_state_exit_ignore_version vma_agent vma_agent_ver_frame
  ⟨h.1 sys_ok daemon_pid100 (enc_state 1 100 ⟨5, 1, 4, 10, 20, 30, 40⟩) 26 9,
   h.2.1 daemon_pid100 (enc_exit 1 100) 8 9⟩
/-! ## Termination of the decode loop -/

/-- What `proc_msg_init` can return. -/
theorem proc_msg_init_result (A : agent_h) (sys : sys_calls) (d : daemon) (msg : List Nat)
    (size : Nat) (peeraddr : sockaddr_un) :
    ((proc_msg_init A sys d msg size peeraddr).1 = (A.sizeof_init : Int) ∧
        A.sizeof_init ≤ size) ∨
      (proc_msg_init A sys d msg size peeraddr).1 < 0 := by
  by_cases h : (proc_msg_init A sys d msg size peeraddr).1 < 0
  · exact Or.inr h
  · obtain ⟨h1, h2, h3, h4, ht1, hput⟩ :=
      proc_msg_init_nonneg A sys d msg size peeraddr (Int.not_lt.mp h)
    rw [proc_msg_init_ok A sys d msg size peeraddr ht1 h1 h2 h3 h4 hput]
    exact Or.inl ⟨rfl, h1⟩

/-- What `proc_msg_state` can return. -/
theorem proc_msg_state_result (A : agent_h) (sys : sys_calls) (d : daemon) (msg : List Nat)
    (size : Nat) :
    ((proc_msg_state A sys d msg size).1 = (A.sizeof_state : Int) ∧ A.sizeof_state ≤ size) ∨
      (proc_msg_state A sys d msg size).1 < 0 := by
  unfold proc_msg_state
  by_cases h1 : size < A.sizeof_state
  · simp [h1, EBADMSG]
  have h1' : A.sizeof_state ≤ size := Nat.le_of_not_lt h1
  cases h2 : hash_get d.ht (A.hdr_pid msg) with
  | none => simp [h1, ENOENT]
  | some s =>
    by_cases h3 : A.CLOSED = A.state_state msg ∧ A.SOCK_STREAM = A.state_type msg
    · simp [h1, h3, h1']
    cases h4 : sys.calloc_ok
    · simp [h1, h3, ENOMEM]
    cases hput : hash_put s.ht (A.state_fid msg)
        ⟨A.state_fid msg, A.state_type msg, A.state_state msg, A.state_src_ip msg,
         A.state_dst_ip msg, A.state_src_port msg, A.state_dst_port msg⟩ with
    | none => simp [h1, h3, hput, EFAULT]
    | some ht1 => simp [h1, h3, hput, h1']

/-- What `proc_msg_exit` can return. -/
theorem proc_msg_exit_result (A : agent_h) (d : daemon) (msg : List Nat) (size : Nat) :
    ((proc_msg_exit A d msg size).1 = (A.sizeof_exit : Int) ∧ A.sizeof_exit ≤ size) ∨
      (proc_msg_exit A d msg size).1 < 0 := by
  unfold proc_msg_exit
  by_cases h1 : size < A.sizeof_exit
  · simp [h1, EBADMSG]
  · simp [h1, Nat.le_of_not_lt h1]

/-- What a handler called from the `switch` can return: a negative value, or a
size that is at least the header size and at most the remaining length. -/
theorem dispatch_result (A : agent_h) (hS : A.sizes_ok) (sys : sys_calls)
    (peeraddr : sockaddr_un) (len : Int) (d : daemon) (msg : List Nat)
    (rc1 : Int) (d1 : daemon) (msg1 : List Nat) (hlen : 0 < len)
    (hd : dispatch A sys peeraddr len d msg = some (rc1, d1, msg1)) :
    rc1 < 0 ∨ ((A.sizeof_hdr : Int) ≤ rc1 ∧ 0 < rc1 ∧ rc1 ≤ len) := by
  obtain ⟨s0, s1, s2, s3⟩ := hS
  unfold dispatch at hd
  by_cases c1 : A.hdr_code msg = A.VMA_MSG_INIT
  · rw [if_pos c1] at hd
    simp only [Option.some.injEq] at hd
    have := proc_msg_init_result A sys d msg len.toNat peeraddr
    rw [hd] at this
    rcases this with ⟨e, hle⟩ | h
    · right
      simp only at e
      omega
    · exact Or.inl h
  by_cases c2 : A.hdr_code msg = A.VMA_MSG_STATE
  · rw [if_neg c1, if_pos c2] at hd
    simp only [Option.some.injEq, Prod.mk.injEq] at hd
    have := proc_msg_state_result A sys d msg len.toNat
    rw [hd.1] at this
    rcases this with ⟨e, hle⟩ | h
    · right
      omega
    · exact Or.inl h
  by_cases c3 : A.hdr_code msg = A.VMA_MSG_EXIT
  · rw [if_neg c1, if_neg c2, if_pos c3] at hd
    simp only [Option.some.injEq, Prod.mk.injEq] at hd
    have := proc_msg_exit_result A d msg len.toNat
    rw [hd.1] at this
    rcases this with ⟨e, hle⟩ | h
    · right
      omega
    · exact Or.inl h
  · rw [if_neg c1, if_neg c2, if_neg c3] at hd
    cases hd
/-- With enough fuel the loop returns; it returns 0 or a negative value, and 0
when and only when some number of iterations with a positive handler result
brings the remaining length to exactly 0. -/
theorem proc_message_loop_total (A : agent_h) (hS : A.sizes_ok) (peeraddr : sockaddr_un)
    (fuel : Nat) :
    ∀ (env : Nat → sys_calls) (len : Int) (d : daemon) (msg : List Nat),
      0 ≤ len → len.toNat ≤ fuel →
      ∃ rc d1 m1, proc_message_loop A peeraddr fuel env 0 len d msg = some (rc, d1, m1) ∧
        rc ≤ 0 ∧
        (rc = 0 → ∃ k, loop_after A peeraddr k env len d msg = some (0, d1, m1)) ∧
        (∀ k d2 m2, loop_after A peeraddr k env len d msg = some (0, d2, m2) → rc = 0) := by
  induction fuel with
  | zero =>
    intro env len d msg h0 hf
    have hl : len = 0 := by omega
    subst hl
    refine ⟨0, d, msg, proc_message_loop_done A peeraddr 0 env 0 0 d msg (Int.le_refl 0),
      Int.le_refl 0, fun _ => ⟨0, rfl⟩, fun _ _ _ _ => rfl⟩
  | succ fuel ih =>
    intro env len d msg h0 hf
    by_cases hpos : 0 < len
    · -- no run of successful iterations of length 0 ends at remaining length 0
      have hk0 : ∀ d2 m2, loop_after A peeraddr 0 env len d msg ≠ some (0, d2, m2) := by
        intro d2 m2 h
        simp only [loop_after, Option.some.injEq, Prod.mk.injEq] at h
        omega
      by_cases hhdr : len < (A.sizeof_hdr : Int)
      · refine ⟨-EBADMSG, d, msg, ?_, by simp [EBADMSG], ?_, ?_⟩
        · rw [proc_message_loop]
          simp [hpos, hhdr]
        · intro h
          simp [EBADMSG] at h
        · intro k d2 m2 h
          cases k with
          | zero => exact absurd h (hk0 d2 m2)
          | succ k =>
            rw [loop_after] at h
            simp [hhdr] at h
      · cases hd : dispatch A (env 0) peeraddr len d msg with
        | none =>
          refine ⟨-EPROTO, d, msg, ?_, by simp [EPROTO], ?_, ?_⟩
          · rw [proc_message_loop]
            simp [hpos, hhdr, hd]
          · intro h
            simp [EPROTO] at h
          · intro k d2 m2 h
            cases k with
            | zero => exact absurd h (hk0 d2 m2)
            | succ k =>
              rw [loop_after] at h
              simp [hpos, hhdr, hd] at h
        | some r =>
          obtain ⟨rc1, d1, m1⟩ := r
          have hres := dispatch_result A hS (env 0) peeraddr len d msg rc1 d1 m1 hpos hd
          by_cases hrc : 0 < rc1
          · have hb : (A.sizeof_hdr : Int) ≤ rc1 ∧ 0 < rc1 ∧ rc1 ≤ len := by
              rcases hres with h | h
              · omega
              · exact h
            obtain ⟨rc, d3, m3, e1, e2, e3, e4⟩ :=
              ih (fun n => env (n + 1)) (len - rc1) d1 m1 (by omega) (by omega)
            refine ⟨rc, d3, m3, ?_, e2, ?_, ?_⟩
            · rw [proc_message_loop_step A peeraddr fuel env 0 len d msg rc1 d1 m1 hpos hhdr
                hd hrc]
              exact e1
            · intro h
              obtain ⟨k, hk⟩ := e3 h
              refine ⟨k + 1, ?_⟩
              rw [loop_after]
              simp [hpos, hhdr, hd, hrc, hk]
            · intro k d2 m2 h
              cases k with
              | zero => exact absurd h (hk0 d2 m2)
              | succ k =>
                rw [loop_after] at h
                simp only [hpos, hhdr, not_false_eq_true, and_self, if_true, hd, hrc] at h
                exact e4 k d2 m2 h
          · have hneg : rc1 < 0 := by
              rcases hres with h | h
              · exact h
              · omega
            refine ⟨rc1, d1, m1, ?_, by omega, ?_, ?_⟩
            · exact proc_message_loop_fail A peeraddr fuel env 0 len d msg rc1 d1 m1 hpos hhdr
                hd hrc
            · intro h
              omega
            · intro k d2 m2 h
              cases k with
              | zero => exact absurd h (hk0 d2 m2)
              | succ k =>
                rw [loop_after] at h
                simp [hpos, hhdr, hd, hrc] at h
    · have hl : len = 0 := by omega
      subst hl
      refine ⟨0, d, msg, proc_message_loop_done A peeraddr _ env 0 0 d msg (Int.le_refl 0),
        Int.le_refl 0, fun _ => ⟨0, rfl⟩, fun _ _ _ _ => rfl⟩

/-- The body of the loop is entered at most `len / sizeof(struct vma_hdr) + 1`
times. -/
theorem loop_iterations_le (A : agent_h) (hS : A.sizes_ok) (peeraddr : sockaddr_un)
    (fuel : Nat) :
    ∀ (env : Nat → sys_calls) (len : Int) (d : daemon) (msg : List Nat),
      loop_iterations A peeraddr fuel env len d msg ≤ len.toNat / A.sizeof_hdr + 1 := by
  induction fuel with
  | zero =>
    intro env len d msg
    rw [loop_iterations]
    by_cases hpos : len > 0 <;> simp [hpos]
  | succ fuel ih =>
    intro env len d msg
    rw [loop_iterations]
    by_cases hpos : len > 0
    · simp only [hpos, if_true]
      by_cases hhdr : len < (A.sizeof_hdr : Int)
      · simp [hhdr]
      simp only [hhdr, if_false]
      cases hd : dispatch A (env 0) peeraddr len d msg with
      | none => simp
      | some r =>
        obtain ⟨rc1, d1, m1⟩ := r
        simp only
        by_cases hrc : 0 < rc1
        · simp only [hrc, if_true]
          have hres := dispatch_result A hS (env 0) peeraddr len d msg rc1 d1 m1 hpos hd
          have hb : (A.sizeof_hdr : Int) ≤ rc1 ∧ 0 < rc1 ∧ rc1 ≤ len := by
            rcases hres with h | h
            · omega
            · exact h
          have h1 := ih (fun n => env (n + 1)) (len - rc1) d1 m1
          have h2 : (len - rc1).toNat ≤ len.toNat - A.sizeof_hdr := by omega
          have h3 : A.sizeof_hdr ≤ len.toNat := by omega
          have h4 : len.toNat / A.sizeof_hdr = (len.toNat - A.sizeof_hdr) / A.sizeof_hdr + 1 := by
            conv => lhs; rw [← Nat.sub_add_cancel h3]
            exact Nat.add_div_right _ hS.1
          have h5 := Nat.div_le_div_right (c := A.sizeof_hdr) h2
          omega
        · simp [hrc]
    · simp [hpos]
/-- C16, counterexample: a received buffer of 12 bytes that starts with an Exit
header.  The body of the loop is entered twice, once for the Exit message
and once to reject the 4 bytes that remain, while 12 divided by the header
size 8 is 1. -/
theorem c16_twelve_bytes_two_iterations :
    loop_iterations vma_agent peer0 12 (fun _ => sys_ok) 12 daemon_pid100
        (enc_exit 1 100 ++ [0, 0, 0, 0]) = 2 ∧
    12 / vma_agent.sizeof_hdr = 1 ∧
    proc_message vma_agent (fun _ => sys_ok) [received (enc_exit 1 100 ++ [0, 0, 0, 0]) peer0]
        daemon_pid100
      = some (-EBADMSG, ⟨4, ⟨4, []⟩, []⟩) := by
  refine ⟨by decide, by decide, by decide⟩

/-- C16, amended: the loop of `proc_message` terminates for every remaining length
`L > 0` and every buffer content.  A handler that returns a positive value
returns exactly the size of its message structure, which is at most the
remaining length, and otherwise it returns a negative value; so the
remaining length strictly decreases with every handled message and never
becomes negative.  The body of the loop is entered at most
`L / sizeof(struct vma_hdr) + 1` times.  With fuel `L` the loop returns a
value that is never positive, and it returns 0 exactly when some number of
iterations, each with a positive handler result, brings the remaining length
to exactly 0.  A received buffer of at least header size makes
`proc_message` return, with a value that is never positive. -/
theorem c16_decode_loop_terminates (A : agent_h) (peeraddr : sockaddr_un)
    (env : Nat → sys_calls) (L : Int) (d : daemon) (msg : List Nat)
    (hS : A.sizes_ok) (hL : 0 < L) :
    (∀ (sys : sys_calls) (d1 : daemon) (m : List Nat) (size : Nat) (p : sockaddr_un),
      ((proc_msg_init A sys d1 m size p).1 = (A.sizeof_init : Int) ∧
          0 < (proc_msg_init A sys d1 m size p).1 ∧ A.sizeof_init ≤ size) ∨
        (proc_msg_init A sys d1 m size p).1 < 0) ∧
    (∀ (sys : sys_calls) (d1 : daemon) (m : List Nat) (size : Nat),
      ((proc_msg_state A sys d1 m size).1 = (A.sizeof_state : Int) ∧
          0 < (proc_msg_state A sys d1 m size).1 ∧ A.sizeof_state ≤ size) ∨
        (proc_msg_state A sys d1 m size).1 < 0) ∧
    (∀ (d1 : daemon) (m : List Nat) (size : Nat),
      ((proc_msg_exit A d1 m size).1 = (A.sizeof_exit : Int) ∧
          0 < (proc_msg_exit A d1 m size).1 ∧ A.sizeof_exit ≤ size) ∨
        (proc_msg_exit A d1 m size).1 < 0) ∧
    (∀ (sys : sys_calls) (len rc1 : Int) (d1 d2 : daemon) (m m2 : List Nat),
      0 < len → dispatch A sys peeraddr len d1 m = some (rc1, d2, m2) → 0 < rc1 →
        0 ≤ len - rc1 ∧ len - rc1 < len) ∧
    (∀ fuel, L.toNat ≤ fuel →
      ∃ rc d1 m1, proc_message_loop A peeraddr fuel env 0 L d msg = some (rc, d1, m1) ∧
        rc ≤ 0 ∧
        (rc = 0 ↔ ∃ k, loop_after A peeraddr k env L d msg = some (0, d1, m1))) ∧
    (∀ fuel, loop_iterations A peeraddr fuel env L d msg ≤ L.toNat / A.sizeof_hdr + 1) ∧
    (∀ (buf : List Nat), A.sizeof_hdr ≤ buf.length →
      ∃ rc d1, proc_message A env [received buf peeraddr] d = some (rc, d1) ∧ rc ≤ 0) := by
  have hS' := hS
  obtain ⟨s0, s1, s2, s3⟩ := hS'
  refine ⟨?_, ?_, ?_, ?_, ?_, ?_, ?_⟩
  · intro sys d1 m size p
    rcases proc_msg_init_result A sys d1 m size p with ⟨e, h⟩ | h
    · exact Or.inl ⟨e, by rw [e]; omega, h⟩
    · exact Or.inr h
  · intro sys d1 m size
    rcases proc_msg_state_result A sys d1 m size with ⟨e, h⟩ | h
    · exact Or.inl ⟨e, by rw [e]; omega, h⟩
    · exact Or.inr h
  · intro d1 m size
    rcases proc_msg_exit_result A d1 m size with ⟨e, h⟩ | h
    · exact Or.inl ⟨e, by rw [e]; omega, h⟩
    · exact Or.inr h
  · intro sys len rc1 d1 d2 m m2 hlen hd hrc
    rcases dispatch_result A hS sys peeraddr len d1 m rc1 d2 m2 hlen hd with h | h
    · omega
    · omega
  · intro fuel hf
    obtain ⟨rc, d1, m1, e1, e2, e3, e4⟩ :=
      proc_message_loop_total A hS peeraddr fuel env L d msg (Int.le_of_lt hL) hf
    exact ⟨rc, d1, m1, e1, e2, e3, fun ⟨k, hk⟩ => e4 k d1 m1 hk⟩
  · intro fuel
    exact loop_iterations_le A hS peeraddr fuel env L d msg
  · intro buf hlen
    have hl1 : ¬ ((buf.length : Int) < 0 ∨ (buf.length : Int) < (A.sizeof_hdr : Int)) := by
      omega
    obtain ⟨rc, d1, m1, e1, e2, _, _⟩ :=
      proc_message_loop_total A hS peeraddr buf.length env buf.length d buf
        (Int.ofNat_nonneg _) (by simp)
    refine ⟨rc, d1, ?_, e2⟩
    simp only [proc_message, received, hl1, if_false, Int.toNat_ofNat, e1, Option.map_some']

/-- C16, witness: the loop on a buffer of 52 bytes that starts with a State message
of the registered pid 100. -/
theorem c16_decode_loop_terminates_witness :
    (∃ rc d1 m1, proc_message_loop vma_agent peer0 52 (fun _ => sys_ok) 0 52 daemon_pid100
        (enc_state 1 100 ⟨5, 1, 4, 10, 20, 30, 40⟩ ++
          enc_state 1 100 ⟨5, 1, 2, 11, 21, 31, 41⟩) = some (rc, d1, m1) ∧
      rc ≤ 0 ∧
      (rc = 0 ↔ ∃ k, loop_after vma_agent peer0 k (fun _ => sys_ok) 52 daemon_pid100
        (enc_state 1 100 ⟨5, 1, 4, 10, 20, 30, 40⟩ ++
          enc_state 1 100 ⟨5, 1, 2, 11, 21, 31, 41⟩) = some (0, d1, m1))) ∧
    loop_iterations vma_agent peer0 52 (fun _ => sys_ok) 52 daemon_pid100
        (enc_state 1 100 ⟨5, 1, 4, 10, 20, 30, 40⟩ ++
          enc_state 1 100 ⟨5, 1, 2, 11, 21, 31, 41⟩) ≤ 7 :=
  have h := c16_decode_loop_terminates vma_agent peer0 (fun _ => sys_ok) 52 daemon_pid100
    (enc_state 1 100 ⟨5, 1, 4, 10, 20, 30, 40⟩ ++ enc_state 1 100 ⟨5, 1, 2, 11, 21, 31, 41⟩)
    ⟨by decide, by decide, by decide, by decide⟩ (by decide)
  ⟨h.2.2.2.2.1 52 (by decide), h.2.2.2.2.2.1 52⟩
/-! ## A second Init for a registered pid -/

/-- Removing the entries of a key that occurs once shortens the list by one. -/
theorem filter_key_length {V : Type} (l : List (Nat × V)) (k : Nat)
    (hn : (l.map (fun e => e.1)).Nodup) (hk : k ∈ l.map (fun e => e.1)) :
    (l.filter (fun e => e.1 != k)).length + 1 = l.length := by
  induction l with
  | nil => simp at hk
  | cons e l ih =>
    simp only [List.map_cons, List.nodup_cons] at hn
    simp only [List.map_cons, List.mem_cons] at hk
    by_cases he : e.1 = k
    · have hnot : k ∉ l.map (fun e => e.1) := he ▸ hn.1
      have hf : l.filter (fun e => e.1 != k) = l := by
        apply List.filter_eq_self.mpr
        intro a ha
        have : a.1 ≠ k := fun h => hnot (h ▸ List.mem_map_of_mem (fun e => e.1) ha)
        simp [this]
      simp [List.filter_cons, he, hf]
    · have hk1 : k ∈ l.map (fun e => e.1) := by
        rcases hk with h | h
        · exact absurd h.symm he
        · exact h
      have := ih hn.2 hk1
      simp [List.filter_cons, he]
      omega

/-- A key that `hash_get` finds is a key of an entry. -/
theorem hash_get_some_mem {V : Type} (ht : hash_object V) (k : Nat) (v : V)
    (h : hash_get ht k = some v) : (k, v) ∈ ht.table := by
  simp only [hash_get, Option.map_eq_some'] at h
  obtain ⟨e, he, hv⟩ := h
  have h1 := List.find?_some he
  have h2 := List.mem_of_find?_eq_some he
  simp only [beq_iff_eq] at h1
  have : e = (k, v) := Prod.ext h1 hv
  rw [← this]
  exact h2

/-- C17: pid `p` is registered with a session `s`, whatever its table holds.  A
full-size Init message for `p` with an accepted version, for which the
allocations succeed and `hash_put` on the registry succeeds, makes
`proc_msg_init` return `sizeof(struct vma_msg_init)`.  Afterwards the
registry maps `p` to a new session with the library version of the message
and an empty table, so that no fid is tracked for `p`; every other pid keeps
its session and the same pids are registered as before; with unique keys the
count of the registry is unchanged. -/
theorem c17_duplicate_init_overwrites (A : agent_h) (sys : sys_calls) (d : daemon)
    (msg : List Nat) (size : Nat) (peeraddr : sockaddr_un) (s : store_pid)
    (ht1 : hash_object store_pid)
    (hreg : hash_get d.ht (A.hdr_pid msg) = some s)
    (hsize : A.sizeof_init ≤ size) (hver : A.hdr_ver msg ≤ A.VMA_AGENT_VER)
    (hcalloc : sys.calloc_ok = true) (hcreate : sys.hash_create_ok = true)
    (hput : hash_put d.ht (A.hdr_pid msg)
      ⟨A.hdr_pid msg, A.init_ver msg, sys.gettimeofday, hash_create store_fid d.max_fid_num⟩
        = some ht1) :
    (proc_msg_init A sys d msg size peeraddr).1 = (A.sizeof_init : Int) ∧
    hash_get (proc_msg_init A sys d msg size peeraddr).2.1.ht (A.hdr_pid msg)
      = some ⟨A.hdr_pid msg, A.init_ver msg, sys.gettimeofday,
              ⟨d.max_fid_num, []⟩⟩ ∧
    (∀ fid, socket_of (proc_msg_init A sys d msg size peeraddr).2.1 (A.hdr_pid msg) fid
      = none) ∧
    (∀ q, q ≠ A.hdr_pid msg →
      hash_get (proc_msg_init A sys d msg size peeraddr).2.1.ht q = hash_get d.ht q) ∧
    (∀ q, (hash_get (proc_msg_init A sys d msg size peeraddr).2.1.ht q).isSome
      = (hash_get d.ht q).isSome) ∧
    (hash_keys_unique d.ht →
      hash_count (proc_msg_init A sys d msg size peeraddr).2.1.ht = hash_count d.ht) := by
  rw [proc_msg_init_ok A sys d msg size peeraddr ht1 hsize hver hcalloc hcreate hput]
  have hg : ∀ k1, hash_get ht1 k1 = if k1 = A.hdr_pid msg then
      some ⟨A.hdr_pid msg, A.init_ver msg, sys.gettimeofday,
        hash_create store_fid d.max_fid_num⟩ else hash_get d.ht k1 :=
    fun k1 => hash_get_put _ _ _ k1 _ hput
  refine ⟨rfl, ?_, ?_, ?_, ?_, ?_⟩
  · simp [hg, hash_create]
  · intro fid
    simp only [socket_of, hg, if_true, Option.some_bind]
    simp [hash_create, hash_get]
  · intro q hq
    simp [hg, hq]
  · intro q
    by_cases hq : q = A.hdr_pid msg
    · simp [hg, hq, hreg]
    · simp [hg, hq]
  · intro hu
    have hmem := hash_get_some_mem d.ht _ s hreg
    have hk : A.hdr_pid msg ∈ d.ht.table.map (fun e => e.1) :=
      List.mem_map_of_mem (fun e => e.1) hmem
    have hl := filter_key_length d.ht.table (A.hdr_pid msg) hu hk
    unfold hash_put at hput
    simp only [hreg, Option.isSome_some, if_true, Option.some.injEq] at hput
    subst hput
    simp only [hash_count, List.length_cons]
    exact hl

/-- C17, witness: pid 100 is registered and tracks fid 5; a second Init for pid 100
with library version 8 leaves pid 100 with an empty table, and two pids
registered. -/
theorem c17_duplicate_init_overwrites_witness :
    hash_get (proc_msg_init vma_agent sys_ok daemon_pid100_fid5 (enc_init 1 100 8) 12
        peer0).2.1.ht 100 = some ⟨100, 8, 0, ⟨4, []⟩⟩ ∧
    hash_count (proc_msg_init vma_agent sys_ok daemon_pid100_fid5 (enc_init 1 100 8) 12
        peer0).2.1.ht = hash_count daemon_pid100_fid5.ht :=
  have h := c17_duplicate_init_overwrites vma_agent sys_ok daemon_pid100_fid5
    (enc_init 1 100 8) 12 peer0 ⟨100, 7, 0, ⟨4, [(5, ⟨5, 1, 4, 10, 20, 30, 40⟩)]⟩⟩
    ⟨4, [(100, ⟨100, 8, 0, ⟨4, []⟩⟩), (200, ⟨200, 7, 0, ⟨4, [(9, ⟨9, 2, 0, 1, 2, 3, 4⟩)]⟩⟩)]⟩
    (by decide) (by decide) (by decide) (by decide) (by decide) (by decide)
  ⟨h.2.1, h.2.2.2.2.2 (by simp [hash_keys_unique, daemon_pid100_fid5])⟩
/-! ## The invariant of the reachable states -/

/-- The entries of a map after a successful `hash_put`. -/
theorem hash_put_mem {V : Type} (ht ht1 : hash_object V) (k : Nat) (v : V)
    (h : hash_put ht k v = some ht1) :
    ∀ e ∈ ht1.table, e = (k, v) ∨ e ∈ ht.table := by
  intro e he
  unfold hash_put at h
  split at h
  · cases h
    simp only [List.mem_cons, List.mem_filter] at he
    rcases he with h1 | h1
    · exact Or.inl h1
    · exact Or.inr h1.1
  · split at h
    · cases h
      simp only [List.mem_cons] at he
      exact he
    · cases h

/-- The entries of a map after `hash_del`. -/
theorem hash_del_mem {V : Type} (ht : hash_object V) (k : Nat) :
    ∀ e ∈ (hash_del ht k).table, e ∈ ht.table := by
  intro e he
  simp only [hash_del, List.mem_filter] at he
  exact he.1

/-- The entries of a map after a store through a pointer. -/
theorem hash_store_mem {V : Type} (ht : hash_object V) (k : Nat) (v : V) :
    ∀ e ∈ (hash_store ht k v).table, (e.1 = k ∧ e.2 = v) ∨ e ∈ ht.table := by
  intro e he
  simp only [hash_store, List.mem_map] at he
  obtain ⟨a, ha, hae⟩ := he
  by_cases h : a.1 = k
  · simp only [h, if_true] at hae
    left
    rw [← hae]
    exact ⟨rfl, rfl⟩
  · simp only [h, if_false] at hae
    right
    rw [← hae]
    exact ha

/-- The handler `proc_msg_init` keeps the invariant. -/
theorem registry_ok_init (A : agent_h) (sys : sys_calls) (d : daemon) (msg : List Nat)
    (size : Nat) (peeraddr : sockaddr_un) (h : registry_ok A d) :
    registry_ok A (proc_msg_init A sys d msg size peeraddr).2.1 := by
  by_cases hneg : (proc_msg_init A sys d msg size peeraddr).1 < 0
  · rw [proc_msg_init_neg A sys d msg size peeraddr hneg]
    exact h
  · obtain ⟨h1, h2, h3, h4, ht1, hput⟩ :=
      proc_msg_init_nonneg A sys d msg size peeraddr (Int.not_lt.mp hneg)
    rw [proc_msg_init_ok A sys d msg size peeraddr ht1 h1 h2 h3 h4 hput]
    intro e he
    rcases hash_put_mem _ _ _ _ hput e he with h5 | h5
    · rw [h5]
      refine ⟨rfl, ?_⟩
      intro r hr
      simp [hash_create] at hr
    · exact h e h5

/-- The handler `proc_msg_exit` keeps the invariant. -/
theorem registry_ok_exit (A : agent_h) (d : daemon) (msg : List Nat) (size : Nat)
    (h : registry_ok A d) : registry_ok A (proc_msg_exit A d msg size).2 := by
  unfold proc_msg_exit
  by_cases h1 : size < A.sizeof_exit
  · simp only [h1, if_true]
    exact h
  · simp only [h1, if_false]
    intro e he
    exact h e (hash_del_mem _ _ e he)

/-- The handler `proc_msg_state` keeps the invariant. -/
theorem registry_ok_state (A : agent_h) (sys : sys_calls) (d : daemon) (msg : List Nat)
    (size : Nat) (h : registry_ok A d) : registry_ok A (proc_msg_state A sys d msg size).2 := by
  by_cases h1 : size < A.sizeof_state
  · have e : proc_msg_state A sys d msg size = (-EBADMSG, d) := by
      unfold proc_msg_state
      simp [h1]
    rw [e]
    exact h
  have hsz : A.sizeof_state ≤ size := Nat.le_of_not_lt h1
  cases h2 : hash_get d.ht (A.hdr_pid msg) with
  | none =>
    rw [proc_msg_state_noent A sys d msg size hsz h2]
    exact h
  | some s =>
    have hs := h _ (hash_get_some_mem d.ht _ s h2)
    by_cases h3 : A.CLOSED = A.state_state msg ∧ A.SOCK_STREAM = A.state_type msg
    · rw [proc_msg_state_closed A sys d msg size s hsz h2 h3.1.symm h3.2.symm]
      intro e he
      rcases hash_store_mem _ _ _ e he with ⟨e1, e2⟩ | h5
      · rw [e2, e1]
        refine ⟨hs.1, ?_⟩
        intro r hr
        exact hs.2 r (hash_del_mem _ _ r hr)
      · exact h e h5
    cases h4 : sys.calloc_ok
    · have e : proc_msg_state A sys d msg size = (-ENOMEM, d) := by
        unfold proc_msg_state
        simp [h1, h2, h3, h4]
      rw [e]
      exact h
    cases hput : hash_put s.ht (A.state_fid msg) (record_of A msg) with
    | none =>
      have e : proc_msg_state A sys d msg size = (-EFAULT, d) := by
        unfold record_of at hput
        unfold proc_msg_state
        simp [h1, h2, h3, h4, hput]
      rw [e]
      exact h
    | some ht1 =>
      rw [proc_msg_state_put A sys d msg size s ht1 hsz h2 h3 h4 hput]
      intro e he
      rcases hash_store_mem _ _ _ e he with ⟨e1, e2⟩ | h5
      · rw [e2, e1]
        refine ⟨hs.1, ?_⟩
        intro r hr
        rcases hash_put_mem _ _ _ _ hput r hr with h6 | h6
        · rw [h6]
          refine ⟨rfl, ?_⟩
          intro hc
          exact h3 ⟨hc.2.symm, hc.1.symm⟩
        · exact hs.2 r h6
      · exact h e h5

/-- C18: in every state reachable from the empty registry by calls of
`proc_msg_init`, `proc_msg_state` and `proc_msg_exit`, whether they succeed
or fail, (1) every session stored under a registry key `k` has the pid `k`,
(2) every record stored under a table key `f` has the fid `f`, and (3) no
record has the type `SOCK_STREAM` together with the state `CLOSED`.  This
holds for the entries of the maps and for what `hash_get` returns. -/
theorem c18_reachable_invariant (A : agent_h) (d : daemon) (hr : reachable A d) :
    (∀ e ∈ d.ht.table, e.2.pid = e.1 ∧
      ∀ r ∈ e.2.ht.table, r.2.fid = r.1 ∧ ¬ (r.2.type = A.SOCK_STREAM ∧ r.2.state = A.CLOSED)) ∧
    (∀ k s, hash_get d.ht k = some s →
      s.pid = k ∧
      ∀ f r, hash_get s.ht f = some r →
        r.fid = f ∧ ¬ (r.type = A.SOCK_STREAM ∧ r.state = A.CLOSED)) := by
  have h : registry_ok A d := by
    induction hr with
    | start m n =>
      intro e he
      simp [daemon_start, hash_create] at he
    | init sys d msg size peeraddr _ ih => exact registry_ok_init A sys d msg size peeraddr ih
    | state sys d msg size _ ih => exact registry_ok_state A sys d msg size ih
    | exit d msg size _ ih => exact registry_ok_exit A d msg size ih
  refine ⟨h, ?_⟩
  intro k s hk
  have h1 := h _ (hash_get_some_mem d.ht k s hk)
  refine ⟨h1.1, ?_⟩
  intro f r hf
  exact h1.2 _ (hash_get_some_mem s.ht f r hf)

/-- C18, witness: the state after Init for pid 100, a State for fid 5, a State that
closes fid 5 and a State for the datagram socket fid 6 is reachable; it
tracks fid 6 alone, and the invariant holds in it. -/
theorem c18_reachable_invariant_witness :
    reachable vma_agent daemon_after_four ∧
    daemon_after_four.ht.table = [(100, ⟨100, 7, 0, ⟨4, [(6, ⟨6, 2, 0, 11, 21, 31, 41⟩)]⟩⟩)] ∧
    (∀ k s, hash_get daemon_after_four.ht k = some s →
      s.pid = k ∧
      ∀ f r, hash_get s.ht f = some r →
        r.fid = f ∧ ¬ (r.type = vma_agent.SOCK_STREAM ∧ r.state = vma_agent.CLOSED)) :=
  have hr : reachable vma_agent daemon_after_four :=
    reachable.state sys_ok _ (enc_state 1 100 ⟨6, 2, 0, 11, 21, 31, 41⟩) 26
      (reachable.state sys_ok _ (enc_state 1 100 ⟨5, 1, 0, 10, 20, 30, 40⟩) 26
        (reachable.state sys_ok _ (enc_state 1 100 ⟨5, 1, 4, 10, 20, 30, 40⟩) 26
          (reachable.init sys_ok _ (enc_init 1 100 7) 12 peer0 (reachable.start 4 4))))
  ⟨hr, by decide, (c18_reachable_invariant vma_agent daemon_after_four hr).2⟩
/-! ## The decoder reads the first record only -/

/-- A byte below `n` is the same in two buffers with the same first `n` bytes. -/
theorem rd8_of_take_eq (b1 b2 : List Nat) (n j : Nat) (h : b1.take n = b2.take n)
    (hj : j < n) : rd8 b1 j = rd8 b2 j := by
  rw [← rd8_take b1 n j hj, ← rd8_take b2 n j hj, h]

/-- The layout `vma_agent` stays within its first 26 bytes. -/
theorem vma_agent_prefix_ok : vma_agent.prefix_ok where
  code := by
    intro b1 b2 h
    exact rd8_of_take_eq b1 b2 26 0 h (by decide)
  ver := by
    intro b1 b2 h
    exact rd8_of_take_eq b1 b2 26 1 h (by decide)
  pid := by
    intro b1 b2 h
    have h' : b1.take 26 = b2.take 26 := h
    simp only [vma_agent, rd32, rd16]
    rw [rd8_of_take_eq b1 b2 26 4 h' (by decide), rd8_of_take_eq b1 b2 26 (4 + 1) h' (by decide),
      rd8_of_take_eq b1 b2 26 (4 + 2) h' (by decide),
      rd8_of_take_eq b1 b2 26 (4 + 2 + 1) h' (by decide)]
  init_ver := by
    intro b1 b2 h
    have h' : b1.take 26 = b2.take 26 := h
    simp only [vma_agent, rd32, rd16]
    rw [rd8_of_take_eq b1 b2 26 8 h' (by decide), rd8_of_take_eq b1 b2 26 (8 + 1) h' (by decide),
      rd8_of_take_eq b1 b2 26 (8 + 2) h' (by decide),
      rd8_of_take_eq b1 b2 26 (8 + 2 + 1) h' (by decide)]
  fid := by
    intro b1 b2 h
    have h' : b1.take 26 = b2.take 26 := h
    simp only [vma_agent, rd32, rd16]
    rw [rd8_of_take_eq b1 b2 26 8 h' (by decide), rd8_of_take_eq b1 b2 26 (8 + 1) h' (by decide),
      rd8_of_take_eq b1 b2 26 (8 + 2) h' (by decide),
      rd8_of_take_eq b1 b2 26 (8 + 2 + 1) h' (by decide)]
  type := by
    intro b1 b2 h
    exact rd8_of_take_eq b1 b2 26 24 h (by decide)
  state := by
    intro b1 b2 h
    exact rd8_of_take_eq b1 b2 26 25 h (by decide)
  src_ip := by
    intro b1 b2 h
    have h' : b1.take 26 = b2.take 26 := h
    simp only [vma_agent, rd32, rd16]
    rw [rd8_of_take_eq b1 b2 26 12 h' (by decide),
      rd8_of_take_eq b1 b2 26 (12 + 1) h' (by decide),
      rd8_of_take_eq b1 b2 26 (12 + 2) h' (by decide),
      rd8_of_take_eq b1 b2 26 (12 + 2 + 1) h' (by decide)]
  dst_ip := by
    intro b1 b2 h
    have h' : b1.take 26 = b2.take 26 := h
    simp only [vma_agent, rd32, rd16]
    rw [rd8_of_take_eq b1 b2 26 16 h' (by decide),
      rd8_of_take_eq b1 b2 26 (16 + 1) h' (by decide),
      rd8_of_take_eq b1 b2 26 (16 + 2) h' (by decide),
      rd8_of_take_eq b1 b2 26 (16 + 2 + 1) h' (by decide)]
  src_port := by
    intro b1 b2 h
    have h' : b1.take 26 = b2.take 26 := h
    simp only [vma_agent, rd16]
    rw [rd8_of_take_eq b1 b2 26 20 h' (by decide),
      rd8_of_take_eq b1 b2 26 (20 + 1) h' (by decide)]
  dst_port := by
    intro b1 b2 h
    have h' : b1.take 26 = b2.take 26 := h
    simp only [vma_agent, rd16]
    rw [rd8_of_take_eq b1 b2 26 22 h' (by decide),
      rd8_of_take_eq b1 b2 26 (22 + 1) h' (by decide)]
  set_code := by
    intro b1 b2 v h
    have h' : b1.take 26 = b2.take 26 := h
    show (wr8 b1 0 v).take 26 = (wr8 b2 0 v).take 26
    simp only [wr8, List.set_take, h']
  set_ver := by
    intro b1 b2 v h
    have h' : b1.take 26 = b2.take 26 := h
    show (wr8 b1 1 v).take 26 = (wr8 b2 1 v).take 26
    simp only [wr8, List.set_take, h']
/-- Two buffers with the same first record give the same result and state in
`proc_msg_init`, and the buffers keep the same first record. -/
theorem proc_msg_init_prefix (A : agent_h) (hA : A.prefix_ok) (sys : sys_calls) (d : daemon)
    (b1 b2 : List Nat) (size : Nat) (peeraddr : sockaddr_un)
    (h : b1.take A.max_size = b2.take A.max_size) :
    (proc_msg_init A sys d b1 size peeraddr).1 = (proc_msg_init A sys d b2 size peeraddr).1 ∧
    (proc_msg_init A sys d b1 size peeraddr).2.1
      = (proc_msg_init A sys d b2 size peeraddr).2.1 ∧
    (proc_msg_init A sys d b1 size peeraddr).2.2.take A.max_size
      = (proc_msg_init A sys d b2 size peeraddr).2.2.take A.max_size := by
  have hset : (A.set_hdr_ver (A.set_hdr_code b1 (A.hdr_code b2 ||| A.VMA_MSG_ACK))
        A.VMA_AGENT_VER).take A.max_size
      = (A.set_hdr_ver (A.set_hdr_code b2 (A.hdr_code b2 ||| A.VMA_MSG_ACK))
        A.VMA_AGENT_VER).take A.max_size :=
    hA.set_ver _ _ _ (hA.set_code _ _ _ h)
  have hle : A.sizeof_init ≤ A.max_size := Nat.le_max_left _ _
  have hdata : (A.set_hdr_ver (A.set_hdr_code b1 (A.hdr_code b2 ||| A.VMA_MSG_ACK))
        A.VMA_AGENT_VER).take A.sizeof_init
      = (A.set_hdr_ver (A.set_hdr_code b2 (A.hdr_code b2 ||| A.VMA_MSG_ACK))
        A.VMA_AGENT_VER).take A.sizeof_init := by
    have e := congrArg (List.take A.sizeof_init) hset
    rw [List.take_take, List.take_take, Nat.min_eq_left hle] at e
    exact e
  unfold proc_msg_init
  rw [hA.ver b1 b2 h, hA.pid b1 b2 h, hA.init_ver b1 b2 h, hA.code b1 b2 h]
  by_cases h1 : size < A.sizeof_init
  · simp [h1, h]
  by_cases h2 : A.hdr_ver b2 > A.VMA_AGENT_VER
  · simp [h1, h2, h]
  cases h3 : sys.calloc_ok
  · simp [h1, h2, h]
  cases h4 : sys.hash_create_ok
  · simp [h1, h2, h]
  cases hput : hash_put d.ht (A.hdr_pid b2)
      ⟨A.hdr_pid b2, A.init_ver b2, sys.gettimeofday, hash_create store_fid d.max_fid_num⟩ with
  | none => simp [h1, h2, hput, h]
  | some ht1 => simp [h1, h2, hput, hset, hdata]

/-- Two buffers with the same first record are dispatched alike. -/
theorem dispatch_prefix (A : agent_h) (hA : A.prefix_ok) (sys : sys_calls)
    (peeraddr : sockaddr_un) (len : Int) (d : daemon) (b1 b2 : List Nat)
    (h : b1.take A.max_size = b2.take A.max_size) :
    (dispatch A sys peeraddr len d b1 = none ∧ dispatch A sys peeraddr len d b2 = none) ∨
    ∃ rc1 d1 m1 m2, dispatch A sys peeraddr len d b1 = some (rc1, d1, m1) ∧
      dispatch A sys peeraddr len d b2 = some (rc1, d1, m2) ∧
      m1.take A.max_size = m2.take A.max_size := by
  unfold dispatch
  rw [hA.code b1 b2 h]
  by_cases c1 : A.hdr_code b2 = A.VMA_MSG_INIT
  · right
    rw [if_pos c1, if_pos c1]
    obtain ⟨e1, e2, e3⟩ := proc_msg_init_prefix A hA sys d b1 b2 len.toNat peeraddr h
    refine ⟨(proc_msg_init A sys d b1 len.toNat peeraddr).1,
      (proc_msg_init A sys d b1 len.toNat peeraddr).2.1,
      (proc_msg_init A sys d b1 len.toNat peeraddr).2.2,
      (proc_msg_init A sys d b2 len.toNat peeraddr).2.2, rfl, ?_, e3⟩
    rw [e1, e2]
  by_cases c2 : A.hdr_code b2 = A.VMA_MSG_STATE
  · right
    rw [if_neg c1, if_pos c2, if_neg c1, if_pos c2]
    have e := proc_msg_state_reads A sys d b1 b2 len.toNat (hA.pid b1 b2 h) (hA.fid b1 b2 h)
      (hA.type b1 b2 h) (hA.state b1 b2 h) (hA.src_ip b1 b2 h) (hA.dst_ip b1 b2 h)
      (hA.src_port b1 b2 h) (hA.dst_port b1 b2 h)
    refine ⟨(proc_msg_state A sys d b1 len.toNat).1, (proc_msg_state A sys d b1 len.toNat).2,
      b1, b2, rfl, ?_, h⟩
    rw [e]
  by_cases c3 : A.hdr_code b2 = A.VMA_MSG_EXIT
  · right
    rw [if_neg c1, if_neg c2, if_pos c3, if_neg c1, if_neg c2, if_pos c3]
    have e : proc_msg_exit A d b1 len.toNat = proc_msg_exit A d b2 len.toNat := by
      unfold proc_msg_exit
      rw [hA.pid b1 b2 h]
    refine ⟨(proc_msg_exit A d b1 len.toNat).1, (proc_msg_exit A d b1 len.toNat).2,
      b1, b2, rfl, ?_, h⟩
    rw [e]
  · left
    rw [if_neg c1, if_neg c2, if_neg c3, if_neg c1, if_neg c2, if_neg c3]
    exact ⟨rfl, rfl⟩

/-- Two buffers with the same first record give the same result and state in the
loop. -/
theorem proc_message_loop_prefix (A : agent_h) (hA : A.prefix_ok) (peeraddr : sockaddr_un)
    (fuel : Nat) :
    ∀ (env : Nat → sys_calls) (rc len : Int) (d : daemon) (b1 b2 : List Nat),
      b1.take A.max_size = b2.take A.max_size →
      (proc_message_loop A peeraddr fuel env rc len d b1).map (fun x => (x.1, x.2.1))
        = (proc_message_loop A peeraddr fuel env rc len d b2).map (fun x => (x.1, x.2.1)) := by
  induction fuel with
  | zero =>
    intro env rc len d b1 b2 _
    rw [proc_message_loop.eq_def, proc_message_loop.eq_def]
    by_cases hpos : len > 0 <;> simp [hpos]
  | succ fuel ih =>
    intro env rc len d b1 b2 h
    by_cases hpos : 0 < len
    · by_cases hhdr : len < (A.sizeof_hdr : Int)
      · rw [proc_message_loop, proc_message_loop]
        simp [hpos, hhdr]
      · rcases dispatch_prefix A hA (env 0) peeraddr len d b1 b2 h with ⟨e1, e2⟩ |
          ⟨rc1, d1, m1, m2, e1, e2, e3⟩
        · rw [proc_message_loop, proc_message_loop]
          simp [hpos, hhdr, e1, e2]
        · by_cases hrc : 0 < rc1
          · rw [proc_message_loop_step A peeraddr fuel env rc len d b1 rc1 d1 m1 hpos hhdr e1 hrc,
              proc_message_loop_step A peeraddr fuel env rc len d b2 rc1 d1 m2 hpos hhdr e2 hrc]
            exact ih _ _ _ _ _ _ e3
          · rw [proc_message_loop_fail A peeraddr fuel env rc len d b1 rc1 d1 m1 hpos hhdr e1 hrc,
              proc_message_loop_fail A peeraddr fuel env rc len d b2 rc1 d1 m2 hpos hhdr e2 hrc]
            rfl
    · rw [proc_message_loop_done A peeraddr _ env rc len d b1 (Int.not_lt.mp hpos),
        proc_message_loop_done A peeraddr _ env rc len d b2 (Int.not_lt.mp hpos)]
      rfl

/-- C19: the decoder never advances its read position.  Two received buffers of
the same length with the same first `max_size` bytes (the size of the largest
message structure), handled from the same state with the same results of the
system calls, make `proc_message` return the same value and end in the same
state: same registry, same datagrams handed to `sys_sendto`.  The bytes after
the first record have no influence, since every iteration reads the header
and the message at the start of the buffer and only `len` is reduced. -/
theorem c19_only_first_record_is_read (A : agent_h) (env : Nat → sys_calls) (d : daemon)
    (b1 b2 : List Nat) (peeraddr : sockaddr_un) (hA : A.prefix_ok)
    (hlen : b1.length = b2.length)
    (hfirst : b1.take A.max_size = b2.take A.max_size) :
    proc_message A env [received b1 peeraddr] d = proc_message A env [received b2 peeraddr] d := by
  simp only [proc_message, received, hlen]
  split
  · rfl
  · exact proc_message_loop_prefix A hA peeraddr _ env 0 _ d b1 b2 hfirst

/-- C19, witness: a buffer with two State messages for fid 5 and a buffer with the
first of them followed by 26 other bytes give the same result and state. -/
theorem c19_only_first_record_is_read_witness :
    proc_message vma_agent (fun _ => sys_ok)
        [received (enc_state 1 100 ⟨5, 1, 4, 10, 20, 30, 40⟩ ++
          enc_state 1 100 ⟨5, 1, 2, 11, 21, 31, 41⟩) peer0] daemon_pid100
      = proc_message vma_agent (fun _ => sys_ok)
        [received (enc_state 1 100 ⟨5, 1, 4, 10, 20, 30, 40⟩ ++
          enc_exit 1 100 ++ List.replicate 18 255) peer0] daemon_pid100 :=
  c19_only_first_record_is_read vma_agent (fun _ => sys_ok) daemon_pid100
    (enc_state 1 100 ⟨5, 1, 4, 10, 20, 30, 40⟩ ++ enc_state 1 100 ⟨5, 1, 2, 11, 21, 31, 41⟩)
    (enc_state 1 100 ⟨5, 1, 4, 10, 20, 30, 40⟩ ++ enc_exit 1 100 ++ List.replicate 18 255)
    peer0 vma_agent_prefix_ok (by decide) (by decide)
/-! ## What follows an Init message in the same buffer -/

/-- A value with the bits of `a` or-ed in has the bits of `a`. -/
theorem lor_land_self (x a : Nat) : (x ||| a) &&& a = a := by
  apply Nat.eq_of_testBit_eq
  intro i
  simp only [Nat.testBit_and, Nat.testBit_or]
  cases x.testBit i <;> cases a.testBit i <;> rfl

/-- C20: a received buffer starts with a full-size Init message with an accepted
version, the allocations succeed and `hash_put` stores the session, and the
buffer is longer than `sizeof(struct vma_msg_init)` by at least the header
size.  Then `proc_message` registers the pid, hands exactly one
acknowledgement to `sys_sendto`, and returns `-EPROTO`, whatever follows the
Init message in the buffer: `proc_msg_init` has set `VMA_MSG_ACK` in the code
at the start of the buffer, and the next iteration reads that header again,
whose code is none of the three kind tags. -/
theorem c20_init_then_eproto (A : agent_h) (env : Nat → sys_calls) (d : daemon)
    (buf : List Nat) (peeraddr : sockaddr_un) (ht1 : hash_object store_pid)
    (hhdr : 0 < A.sizeof_hdr) (hA : A.overlay_ok) (hack : A.ack_reserved)
    (hnz : A.VMA_MSG_ACK ≠ 0)
    (hcode : A.hdr_code buf = A.VMA_MSG_INIT) (hver : A.hdr_ver buf ≤ A.VMA_AGENT_VER)
    (hlen : A.sizeof_init + A.sizeof_hdr ≤ buf.length)
    (hcalloc : (env 0).calloc_ok = true) (hcreate : (env 0).hash_create_ok = true)
    (hput : hash_put d.ht (A.hdr_pid buf)
      ⟨A.hdr_pid buf, A.init_ver buf, (env 0).gettimeofday,
       hash_create store_fid d.max_fid_num⟩ = some ht1) :
    proc_message A env [received buf peeraddr] d
      = some (-EPROTO,
          { d with ht := ht1,
                   sent := d.sent ++
                     [⟨(A.set_hdr_ver (A.set_hdr_code buf (A.VMA_MSG_INIT ||| A.VMA_MSG_ACK))
                         A.VMA_AGENT_VER).take A.sizeof_init, peeraddr⟩] }) ∧
    hash_get ht1 (A.hdr_pid buf)
      = some ⟨A.hdr_pid buf, A.init_ver buf, (env 0).gettimeofday,
              hash_create store_fid d.max_fid_num⟩ ∧
    A.hdr_code (A.set_hdr_ver (A.set_hdr_code buf (A.VMA_MSG_INIT ||| A.VMA_MSG_ACK))
        A.VMA_AGENT_VER) = A.VMA_MSG_INIT ||| A.VMA_MSG_ACK ∧
    (A.VMA_MSG_INIT ||| A.VMA_MSG_ACK ≠ A.VMA_MSG_INIT ∧
      A.VMA_MSG_INIT ||| A.VMA_MSG_ACK ≠ A.VMA_MSG_STATE ∧
      A.VMA_MSG_INIT ||| A.VMA_MSG_ACK ≠ A.VMA_MSG_EXIT) := by
  have hinit := hA.hdr_le_init
  have hbuf : A.sizeof_hdr ≤ buf.length := by omega
  have hkinds := ack_code_unknown A hack (A.VMA_MSG_INIT ||| A.VMA_MSG_ACK)
    (by rw [lor_land_self]; exact hnz)
  have hc2 : A.hdr_code (A.set_hdr_ver (A.set_hdr_code buf (A.VMA_MSG_INIT ||| A.VMA_MSG_ACK))
      A.VMA_AGENT_VER) = A.VMA_MSG_INIT ||| A.VMA_MSG_ACK := by
    have := hA.code_set_code buf hbuf
    rw [hcode] at this
    rw [hA.code_set_ver, this]
  refine ⟨?_, ?_, hc2, hkinds⟩
  · have hl1 : ¬ ((buf.length : Int) < 0 ∨ (buf.length : Int) < (A.sizeof_hdr : Int)) := by
      omega
    have e := proc_msg_init_ok A (env 0) d buf buf.length peeraddr ht1 (by omega) hver hcalloc
      hcreate hput
    rw [hcode] at e
    have hd : dispatch A (env 0) peeraddr buf.length d buf
        = some ((A.sizeof_init : Int),
            { d with ht := ht1,
                     sent := d.sent ++
                       [⟨(A.set_hdr_ver (A.set_hdr_code buf (A.VMA_MSG_INIT ||| A.VMA_MSG_ACK))
                           A.VMA_AGENT_VER).take A.sizeof_init, peeraddr⟩] },
            A.set_hdr_ver (A.set_hdr_code buf (A.VMA_MSG_INIT ||| A.VMA_MSG_ACK))
              A.VMA_AGENT_VER) := by
      simp [dispatch, hcode, e]
    obtain ⟨n, hn⟩ : ∃ n, buf.length = n + 1 + 1 := ⟨buf.length - 2, by omega⟩
    simp only [proc_message, received, hl1, if_false, Int.toNat_ofNat]
    have key : ∀ fuel, proc_message_loop A peeraddr (fuel + 1 + 1) env 0 buf.length d buf
        = some (-EPROTO,
            { d with ht := ht1,
                     sent := d.sent ++
                       [⟨(A.set_hdr_ver (A.set_hdr_code buf (A.VMA_MSG_INIT ||| A.VMA_MSG_ACK))
                           A.VMA_AGENT_VER).take A.sizeof_init, peeraddr⟩] },
            A.set_hdr_ver (A.set_hdr_code buf (A.VMA_MSG_INIT ||| A.VMA_MSG_ACK))
              A.VMA_AGENT_VER) := by
      intro fuel
      rw [proc_message_loop_step A peeraddr (fuel + 1) env 0 buf.length d buf _ _ _ (by omega)
        (by omega) hd (by omega)]
      exact proc_message_loop_unknown A peeraddr fuel _ 0 _ _ _ (by omega) (by omega)
        (by rw [hc2]; exact hkinds.1) (by rw [hc2]; exact hkinds.2.1)
        (by rw [hc2]; exact hkinds.2.2)
    have k := key n
    rw [← hn] at k
    rw [k]
    rfl
  · simp [hash_get_put _ _ _ _ _ hput]

/-- C20, witness: an Init message of pid 100 followed by an Exit message of pid 100
in one buffer: the pid is registered, one acknowledgement is sent, the result
is `-EPROTO`, and the Exit message is not handled. -/
theorem c20_init_then_eproto_witness :
    proc_message vma_agent (fun _ => sys_ok) [received (enc_init 1 100 7 ++ enc_exit 1 100) peer0]
        (daemon_start 4 4)
      = some (-EPROTO,
          ⟨4, ⟨4, [(100, ⟨100, 7, 0, ⟨4, []⟩⟩)]⟩,
           [⟨[129, 1, 0, 0, 100, 0, 0, 0, 7, 0, 0, 0], peer0⟩]⟩) :=
  (c20_init_then_eproto vma_agent (fun _ => sys_ok) (daemon_start 4 4)
    (enc_init 1 100 7 ++ enc_exit 1 100) peer0 ⟨4, [(100, ⟨100, 7, 0, ⟨4, []⟩⟩)]⟩
    (by decide) vma_agent_overlay_ok ⟨by decide, by decide, by decide⟩ (by decide)
    (by decide) (by decide) (by decide) (by decide) (by decide) (by decide)).1

end Vma
